import Mathlib

/-!
Shallow embedding of the cut-generation core of `src/scip/cuts.c` (aggregation
rows, the MIR and Strong-CG pipelines, and the flow-cover solver), together
with theorems settling the specification claims about it.

Modelling conventions, used uniformly below:

* `SCIP_Real` is modelled as `ℚ` (exact arithmetic).
* SCIP's infinity is the finite sentinel value `1e20`, exactly as in the C
  code; `SCIPisInfinity(scip, x)` is `infinityQ ≤ x`.  Bounds at `±infinityQ`
  mean "no finite bound".
* The numeric tolerance oracle (`SCIPisZero`, `SCIPisLE`, `SCIPisGT`,
  `SCIPfloor`, `SCIPfeasCeil`, ...) is modelled with exact (zero-epsilon)
  semantics: `SCIPisLE a b` is `a ≤ b`, `SCIPfloor` is the exact floor, etc.
  The spec treats the tolerance module as an external collaborator with fixed
  epsilon semantics; the exact instantiation is the one in which the claims
  are statable.
* Sparse coefficient vectors (parallel arrays `inds`/`vals` in the C code)
  are modelled as association lists `List (ℕ × ℚ)` of
  (variable problem index, coefficient) pairs, in array order.  Dense
  `varpos` position-lookup arrays become association-list lookups with the
  same merge semantics.
* Functions of the repository that live outside `src/` (the exact knapsack
  solver from `cons_knapsack.c`, `SCIPcalcIntegralScalar`,
  `SCIPgetVarClosestVlb/Vub`, the weighted-median selection used for
  sorting) are taken as parameters or are modelled from the spec; each such
  definition says so in its doc comment.
-/

namespace SCIPCuts

/-- SCIP's infinity value `SCIPinfinity(scip)`, the literal `1e20` used by the
C code as a finite sentinel. -/
def infinityQ : ℚ := 10 ^ 20

/-- `SCIPisInfinity(scip, x)`: `x ≥ SCIPinfinity(scip)`. -/
abbrev isInf (x : ℚ) : Prop := infinityQ ≤ x

/-- An LP relaxation row (the fields of `SCIP_ROW` read by `cuts.c`):
sparse coefficients over variable problem indices, both sides, constant
offset, integrality/locality/modifiability flags, rank, LP position and
basis status. -/
structure LPRow where
  cols : List (ℕ × ℚ)
  lhs : ℚ
  rhs : ℚ
  constant : ℚ
  integral : Bool
  rowlocal : Bool
  modifiable : Bool
  rank : ℤ
  lppos : ℤ
  basisstat : ℤ
  deriving DecidableEq, Inhabited

/-- `SCIP_BASESTAT_LOWER` -/
def BASESTAT_LOWER : ℤ := 0
/-- `SCIP_BASESTAT_UPPER` -/
def BASESTAT_UPPER : ℤ := 2

/-- The aggregation row `SCIP_AGGRROW` of `struct_cuts.h`: sparse coefficient
vector (`inds`/`vals` as an association list), right hand side, the recorded
source rows (`rowsinds`/`slacksign`/`rowweights` as parallel lists), rank and
locality flag.  The C field `local` is named `islocal` here (`local` is a
Lean keyword). -/
structure AggrRow where
  entries : List (ℕ × ℚ)
  rhs : ℚ
  rowsinds : List ℤ
  slacksign : List ℤ
  rowweights : List ℚ
  rank : ℤ
  islocal : Bool
  deriving DecidableEq, Inhabited

/-- `SCIPaggrRowCreate` (cuts.c:233): the empty aggregation row. -/
def SCIPaggrRowCreate : AggrRow :=
  { entries := [], rhs := 0, rowsinds := [], slacksign := [], rowweights := [],
    rank := 0, islocal := false }

/-- `SCIPaggrRowClear` (cuts.c:388): resets nnz, nrows, rank, rhs and the
local flag; allocated memory (not modelled) is kept. -/
def SCIPaggrRowClear (_ar : AggrRow) : AggrRow := SCIPaggrRowCreate

/-- `varVecAddScaledRowCoefs` (cuts.c:80): add `scale` times the coefficients
of a row to a sparse variable vector.  If the vector is empty the scaled row
is copied directly; otherwise every coefficient the vector has in common with
the row is merged additively (the dense `varpos` lookup array), and the
remaining row coefficients are appended at the end in row order. -/
def varVecAddScaledRowCoefs (vec : List (ℕ × ℚ)) (rowcols : List (ℕ × ℚ))
    (scale : ℚ) : List (ℕ × ℚ) :=
  if vec.isEmpty then rowcols.map (fun e => (e.1, e.2 * scale))
  else
    (vec.map (fun e =>
      match rowcols.find? (fun re => re.1 == e.1) with
      | some re => (e.1, e.2 + scale * re.2)
      | none => e)) ++
    ((rowcols.filter (fun re => !(vec.any (fun e => e.1 == re.1)))).map
      (fun re => (re.1, re.2 * scale)))

/-- The side selection of `SCIPaggrRowAddRow` (cuts.c:343-362): a forced
`sidetype` of `-1`/`1` selects the lhs/rhs; in automatic mode (`0`) the lhs
is used iff the rhs is infinite, or the scale is negative and the lhs is
finite. -/
def addRowUselhs (row : LPRow) (scale : ℚ) (sidetype : ℤ) : Bool :=
  if sidetype = -1 then true
  else if sidetype = 1 then false
  else if isInf row.rhs ∨ (¬ isInf (-row.lhs) ∧ scale < 0) then true
  else false

/-- The side value used by `SCIPaggrRowAddRow` (cuts.c:364-377): the chosen
side minus the row constant, pre-rounded (ceil for lhs, floor for rhs) if the
row is integral. -/
def addRowSideval (row : LPRow) (uselhs : Bool) : ℚ :=
  if uselhs then
    (if row.integral then ((⌈row.lhs - row.constant⌉ : ℤ) : ℚ)
     else row.lhs - row.constant)
  else
    (if row.integral then ((⌊row.rhs - row.constant⌋ : ℤ) : ℚ)
     else row.rhs - row.constant)

/-- `SCIPaggrRowAddRow` (cuts.c:308): add `scale` times a row to the
aggregation row; records the (lp position, weight, slack sign) triple,
accumulates `scale * sideval` into the rhs, updates rank (max) and locality
(or), and merges the coefficients via `varVecAddScaledRowCoefs`. -/
def SCIPaggrRowAddRow (ar : AggrRow) (row : LPRow) (scale : ℚ) (sidetype : ℤ) :
    AggrRow :=
  let uselhs := addRowUselhs row scale sidetype
  let sideval := addRowSideval row uselhs
  { entries := varVecAddScaledRowCoefs ar.entries row.cols scale
    rhs := ar.rhs + scale * sideval
    rowsinds := ar.rowsinds ++ [row.lppos]
    slacksign := ar.slacksign ++ [if uselhs then -1 else 1]
    rowweights := ar.rowweights ++ [scale]
    rank := max row.rank ar.rank
    islocal := ar.islocal || row.rowlocal }

/-- `SCIPaggrRowCopy` (cuts.c:278).  All fields are duplicated from the
source, except that line 295 duplicates the copy's `rowsinds` array from
`source->vals` (a `SCIP_Real` array) instead of `source->rowsinds`: the
`nrows` integers of the copy are read from the byte representation of the
source's coefficient values.  The byte reinterpretation of a double array as
an int array is not expressible over `ℚ`, so it is abstracted by the
parameter `reinterp`, a function of exactly the data the C code reads (the
`vals` array and the count `nrows`). -/
def SCIPaggrRowCopy (reinterp : List ℚ → ℕ → List ℤ) (source : AggrRow) :
    AggrRow :=
  { entries := source.entries
    rhs := source.rhs
    rowsinds := reinterp (source.entries.map (fun e => e.2))
      source.rowsinds.length
    slacksign := source.slacksign
    rowweights := source.rowweights
    rank := source.rank
    islocal := source.islocal }

/-- The coefficient-merge loop of `addOneRow` (cuts.c:528-543) acting on one
incoming coefficient: if the variable already has a position in the
aggregation row (the shared `varpos` array), the scaled value is added into
the existing entry; otherwise a new entry is appended at the end. -/
def updateEntry : List (ℕ × ℚ) → ℕ → ℚ → List (ℕ × ℚ)
  | [], v, dv => [(v, dv)]
  | e :: rest, v, dv =>
    if e.1 = v then (e.1, e.2 + dv) :: rest else e :: updateEntry rest v dv

/-- The full coefficient loop of `addOneRow` (cuts.c:528-543): fold the row's
coefficients, each scaled by `weight`, into the aggregation row's entries. -/
def addOneRowCoefs (entries : List (ℕ × ℚ)) (rowcols : List (ℕ × ℚ))
    (weight : ℚ) : List (ℕ × ℚ) :=
  rowcols.foldl (fun acc rc => updateEntry acc rc.1 (weight * rc.2)) entries

/-- Running state of `SCIPaggrRowSumRows`: the aggregation row being filled
plus the running minimum/maximum absolute weight. -/
structure SumState where
  ar : AggrRow
  minabsweight : ℚ
  maxabsweight : ℚ
  deriving DecidableEq

/-- The side selection of `addOneRow` (cuts.c:442-472): with `sidetypebasis`
and unequal sides the row's basis status decides; otherwise the lhs is used
iff the weight is negative and the lhs is finite. -/
def addOneRowUselhs (row : LPRow) (weight : ℚ) (sidetypebasis : Bool) : Bool :=
  if sidetypebasis ∧ ¬ row.lhs = row.rhs then
    if row.basisstat = BASESTAT_LOWER then true
    else if row.basisstat = BASESTAT_UPPER then false
    else if weight < 0 ∧ ¬ isInf (-row.lhs) then true
    else false
  else if weight < 0 ∧ ¬ isInf (-row.lhs) then true
  else false

/-- `addOneRow` (cuts.c:404): add one weighted row during `SCIPaggrRowSumRows`.
Rows that are modifiable, disallowed-local, outside the weight-range window or
below the minimum weight are skipped without touching the state; rows whose
selected side would contribute a negative slack forbidden by `negslack` are
skipped after the running min/max weights were updated (cuts.c:439-440 happen
before the side checks).  Otherwise side value (pre-rounded for integral
rows), rhs, rank, local flag, the source-row triple and the coefficients are
folded in, and the second component reports `rowtoolong`
(`aggrrow->nnz > maxaggrlen`, cuts.c:546). -/
def addOneRow (st : SumState) (row : LPRow) (weight : ℚ)
    (maxweightrange minallowedweight : ℚ) (sidetypebasis allowlocal : Bool)
    (negslack : ℤ) (maxaggrlen : ℕ) : SumState × Bool :=
  if row.modifiable ∨ (row.rowlocal ∧ allowlocal = false)
      ∨ |weight| > maxweightrange * st.minabsweight
      ∨ st.maxabsweight > maxweightrange * |weight|
      ∨ |weight| < minallowedweight then
    (st, false)
  else
    let minabs := min st.minabsweight |weight|
    let maxabs := max st.maxabsweight |weight|
    let uselhs := addOneRowUselhs row weight sidetypebasis
    if (uselhs = true ∧ 0 < weight
          ∧ (negslack = 0 ∨ (negslack = 1 ∧ row.integral = false)))
        ∨ (uselhs = false ∧ weight < 0
          ∧ (negslack = 0 ∨ (negslack = 1 ∧ row.integral = false))) then
      ({ st with minabsweight := minabs, maxabsweight := maxabs }, false)
    else
      let sideval := addRowSideval row uselhs
      let entries := addOneRowCoefs st.ar.entries row.cols weight
      (⟨{ entries := entries
          rhs := st.ar.rhs + sideval * weight
          rowsinds := st.ar.rowsinds ++ [row.lppos]
          slacksign := st.ar.slacksign ++ [if uselhs then -1 else 1]
          rowweights := st.ar.rowweights ++ [weight]
          rank := max st.ar.rank row.rank
          islocal := st.ar.islocal || row.rowlocal }, minabs, maxabs⟩,
        decide (entries.length > maxaggrlen))

/-- The row loop of `SCIPaggrRowSumRows` (cuts.c:592-619): fold `addOneRow`
over the selected row indices, aborting as soon as one call reports
`rowtoolong`. -/
def sumRowsLoop (rows : List LPRow) (weights : List ℚ)
    (maxweightrange minallowedweight : ℚ) (sidetypebasis allowlocal : Bool)
    (negslack : ℤ) (maxaggrlen : ℕ) : List ℕ → SumState → SumState × Bool
  | [], st => (st, false)
  | k :: rest, st =>
    let res := addOneRow st (rows.getD k default) (weights.getD k 0)
      maxweightrange minallowedweight sidetypebasis allowlocal negslack
      maxaggrlen
    if res.2 then (res.1, true)
    else sumRowsLoop rows weights maxweightrange minallowedweight sidetypebasis
      allowlocal negslack maxaggrlen rest res.1

/-- `SCIPaggrRowSumRows` (cuts.c:556): clears the aggregation row, folds in
every row whose weight passes the filters, and reports validity.  The fill
aborts with `valid = false` when the running nonzero count exceeds
`maxaggrlen`, and `valid` is `aggrrow->nnz > 0` otherwise; zero entries are
compacted out only in the valid case (the C removal swaps with the last
element, which permutes the entries; the kept set is the same). -/
def SCIPaggrRowSumRows (rows : List LPRow) (weights : List ℚ)
    (rowinds : Option (List ℕ)) (maxweightrange minallowedweight : ℚ)
    (sidetypebasis allowlocal : Bool) (negslack : ℤ) (maxaggrlen : ℕ)
    (ar : AggrRow) : AggrRow × Bool :=
  let st0 : SumState := ⟨SCIPaggrRowClear ar, infinityQ, -infinityQ⟩
  let idxs := match rowinds with
    | some l => l
    | none => List.range rows.length
  let res := sumRowsLoop rows weights maxweightrange minallowedweight
    sidetypebasis allowlocal negslack maxaggrlen idxs st0
  if res.2 then (res.1.ar, false)
  else if 0 < res.1.ar.entries.length then
    ({ res.1.ar with
        entries := res.1.ar.entries.filter (fun e => decide (¬ e.2 = 0)) },
      true)
  else (res.1.ar, false)

/-- `cleanupCut` (cuts.c:732-790): removes near-zero coefficients, relaxing
the rhs by the corresponding bound contribution.  With the exact tolerance
model `SCIPisSumZero` and `SCIPisZero` coincide, so the rhs-relaxation branch
(guarded by sum-zero and not zero) never fires: the function reduces to
dropping the exactly-zero coefficients with the rhs unchanged. -/
def cleanupCut (entries : List (ℕ × ℚ)) (rhs : ℚ) : List (ℕ × ℚ) × ℚ :=
  (entries.filter (fun e => decide (¬ e.2 = 0)), rhs)

/-- `MAXCMIRSCALE` (cuts.c:854): maximal allowed `scale/(1-f0)` in c-MIR. -/
def MAXCMIRSCALE : ℚ := 10 ^ 6

/-- The integer-variable coefficient computation of `cutsRoundMIR`
(cuts.c:1706-1719): `a'_j = varsign * a_j`, `f_j = a'_j - down(a'_j)`; the
coefficient in the retransformed cut is `varsign * down(a'_j)` if
`f_j ≤ f0`, else `varsign * (down(a'_j) + (f_j - f0) * 1/(1-f0))`.
This helper is the body used by the list-level `cutsRoundMIR` below. -/
def cutsRoundMIRIntCoef (varsign : ℤ) (coef f0 : ℚ) : ℚ :=
  let aj := (varsign : ℚ) * coef
  let downaj : ℚ := ((⌊aj⌋ : ℤ) : ℚ)
  let fj := aj - downaj
  if fj ≤ f0 then (varsign : ℚ) * downaj
  else (varsign : ℚ) * (downaj + (fj - f0) * (1 / (1 - f0)))

/-- The continuous-variable coefficient computation of `cutsRoundMIR`
(cuts.c:1789-1798): `a'_j = varsign * a_j`; the coefficient is `0` if
`a'_j ≥ 0`, else `varsign * a'_j * 1/(1-f0)`. -/
def cutsRoundMIRContCoef (varsign : ℤ) (coef f0 : ℚ) : ℚ :=
  let aj := (varsign : ℚ) * coef
  if 0 ≤ aj then 0 else (varsign : ℚ) * (aj * (1 / (1 - f0)))

/-- The MIR rounding formula for integer variables exactly as the spec words
it (spec 4.3 step 2), applied to the transformed (complemented) coefficient:
`floor(a')` if `f ≤ f0`, else `floor(a') + (f - f0)/(1 - f0)`. -/
def mirRoundIntSpec (a f0 : ℚ) : ℚ :=
  if a - ((⌊a⌋ : ℤ) : ℚ) ≤ f0 then ((⌊a⌋ : ℤ) : ℚ)
  else ((⌊a⌋ : ℤ) : ℚ) + ((a - ((⌊a⌋ : ℤ) : ℚ)) - f0) / (1 - f0)

/-- The MIR rounding formula for continuous variables exactly as the spec
words it: `0` if `a' ≥ 0`, else `a'/(1 - f0)`. -/
def mirRoundContSpec (a f0 : ℚ) : ℚ :=
  if 0 ≤ a then 0 else a / (1 - f0)

/-- The Strong-CG parameter `k = ceil(1/f0) - 1` (cuts.c:5710, with the
exact ceiling). -/
def strongCGk (f0 : ℚ) : ℤ := ⌈1 / f0⌉ - 1

/-- `p_j = ceil(k * (f_j - f0) * 1/(1-f0))` (cuts.c:5313). -/
def strongCGp (fj f0 : ℚ) (k : ℤ) : ℤ :=
  ⌈(k : ℚ) * (fj - f0) * (1 / (1 - f0))⌉

/-- The integer-variable coefficient computation of `cutsRoundStrongCG`
(cuts.c:5302-5317): as MIR below `f0`, else
`varsign * (down(a'_j) + p_j/(k + 1))`.  This helper is the body used by the
list-level `cutsRoundStrongCG` below. -/
def cutsRoundStrongCGIntCoef (varsign : ℤ) (coef f0 : ℚ) (k : ℤ) : ℚ :=
  let aj := (varsign : ℚ) * coef
  let downaj : ℚ := ((⌊aj⌋ : ℤ) : ℚ)
  let fj := aj - downaj
  if fj ≤ f0 then (varsign : ℚ) * downaj
  else (varsign : ℚ) * (downaj + ((strongCGp fj f0 k : ℤ) : ℚ) / ((k : ℚ) + 1))

/-- The Strong-CG rounding formula for integer variables exactly as the spec
words it, on the transformed coefficient: `floor(a')` if `f ≤ f0`, else
`floor(a') + p/(k+1)` with `p = ceil(k * (f - f0)/(1 - f0))`. -/
def strongCGRoundIntSpec (a f0 : ℚ) (k : ℤ) : ℚ :=
  if a - ((⌊a⌋ : ℤ) : ℚ) ≤ f0 then ((⌊a⌋ : ℤ) : ℚ)
  else ((⌊a⌋ : ℤ) : ℚ) +
    ((⌈(k : ℚ) * ((a - ((⌊a⌋ : ℤ) : ℚ)) - f0) / (1 - f0)⌉ : ℤ) : ℚ) /
      ((k : ℚ) + 1)

/-- The additional delta trials of `SCIPcutGenerationHeuristicCMIR` after the
best delta of the candidate set is known (cuts.c:2617-2623): the loop
`for (i = 2; i <= 8; i *= 2)` retries with `bestdelta / i`. -/
def extraDeltaTrials (bestdelta : ℚ) : List ℚ :=
  [bestdelta / 2, bestdelta / 4, bestdelta / 8]

/-- The best-efficacy update of `tryDelta` (cuts.c:2367-2370): the stored
best efficacy becomes the candidate cut's efficacy iff that is strictly
larger. -/
def tryDeltaBestEfficacy (best cand : ℚ) : ℚ :=
  if cand > best then cand else best

/-- The complementation-flip decision of `SCIPcutGenerationHeuristicCMIR`
(cuts.c:2674-2687): the flip is reverted iff the best efficacy did not
change under `tryDelta` with the flipped complementation (`cand` is the
efficacy computed for the flipped cut), i.e. kept iff it changed. -/
def flipKept (best cand : ℚ) : Bool :=
  decide (¬ tryDeltaBestEfficacy best cand = best)

/-- `SCIPsortDownRealInt` (called at cuts.c:2628): sorts
(bound distance, position) pairs by non-increasing distance.  The sorting
routine itself lives outside `src/`; it is modelled as an insertion sort by
the first component. -/
def sortDownRealInt (l : List (ℚ × ℕ)) : List (ℚ × ℕ) :=
  l.insertionSort (fun a b => b.1 ≤ a.1)

/-- `SCIPsortDownIntReal` (called at cuts.c:1245 and cuts.c:4990): sorts the
cut's (index, coefficient) pairs by non-increasing variable index, so that
continuous variables (largest indices) come first.  The sorting routine
itself lives outside `src/`; it is modelled as an insertion sort by the
index. -/
def sortDownIntReal (l : List (ℕ × ℚ)) : List (ℕ × ℚ) :=
  l.insertionSort (fun a b => b.1 ≤ a.1)

/-- `SCIP_VARTYPE_CONTINUOUS` -/
def VARTYPE_CONTINUOUS : ℤ := 3

/-- `SCIP_BOUNDTYPE_LOWER` -/
def BOUNDTYPE_LOWER : ℤ := 0

/-- `SCIP_BOUNDTYPE_UPPER` -/
def BOUNDTYPE_UPPER : ℤ := 1

/-- A problem variable (the fields of `SCIP_VAR` read by `cuts.c`): type,
global and local bounds (with the `±infinityQ` sentinel for missing bounds),
the registered variable lower/upper bounds (reference variable problem
index, coefficient, constant — `x ≥ b z + d` resp. `x ≤ b z + d`), and the
current LP solution value. -/
structure MVar where
  vartype : ℤ
  glb : ℚ
  gub : ℚ
  llb : ℚ
  lub : ℚ
  vlbs : List (ℕ × ℚ × ℚ)
  vubs : List (ℕ × ℚ × ℚ)
  lpsol : ℚ
  deriving DecidableEq, Inhabited

/-- The problem data a cut-generation call reads: the variables in problem
index order (integral variables first, continuous variables have the largest
indices), the number of continuous variables, and the LP rows by position. -/
structure Prob where
  vars : List MVar
  ncontvars : ℕ
  rows : List LPRow
  deriving DecidableEq, Inhabited

/-- `SCIPgetNVars - SCIPgetNContVars`: index of the first continuous
variable. -/
def Prob.firstcontvar (p : Prob) : ℕ := p.vars.length - p.ncontvars

/-- Variable lookup by problem index. -/
def Prob.var (p : Prob) (v : ℕ) : MVar := p.vars.getD v default

/-- `SCIPgetSolVal`: the candidate solution's value, or the LP solution value
when no solution is given (`sol == NULL`). -/
def solval (p : Prob) (sol : Option (ℕ → ℚ)) (v : ℕ) : ℚ :=
  match sol with
  | none => (p.var v).lpsol
  | some f => f v

/-- Modelled from the spec: `SCIPgetVarClosestVlb` (variable-management
layer, not under `src/`).  Per spec 4.2 it returns the variable lower bound
`b·z + d` whose value at the current solution is the largest (the closest
lower bound), together with its index into the vlb list; no result if the
variable has no vlbs.  Ties keep the earliest index. -/
def closestVlb (p : Prob) (sol : Option (ℕ → ℚ)) (v : ℕ) : Option (ℚ × ℕ) :=
  ((p.var v).vlbs.enum.map
    (fun kt => (kt.2.2.1 * solval p sol kt.2.1 + kt.2.2.2, kt.1))).foldl
    (fun acc c =>
      match acc with
      | none => some c
      | some b => if c.1 > b.1 then some c else some b) none

/-- Modelled from the spec: `SCIPgetVarClosestVub` (variable-management
layer, not under `src/`).  Returns the variable upper bound `b·z + d` whose
value at the current solution is the smallest, with its index. -/
def closestVub (p : Prob) (sol : Option (ℕ → ℚ)) (v : ℕ) : Option (ℚ × ℕ) :=
  ((p.var v).vubs.enum.map
    (fun kt => (kt.2.2.1 * solval p sol kt.2.1 + kt.2.2.2, kt.1))).foldl
    (fun acc c =>
      match acc with
      | none => some c
      | some b => if c.1 < b.1 then some c else some b) none

/-- `findBestLb` (cuts.c:858): start from the global lower bound (type `-1`);
prefer a strictly tighter local bound if `allowlocal` (type `-2`); for a
continuous variable with `usevbds`, prefer the closest variable lower bound
(type = vlb index) if it is at least as tight (strictly tighter than a local
bound) and its reference variable has a strictly smaller problem index. -/
def findBestLb (p : Prob) (sol : Option (ℕ → ℚ)) (v : ℕ)
    (usevbds allowlocal : Bool) : ℚ × ℤ :=
  let var := p.var v
  let b0 : ℚ × ℤ := (var.glb, -1)
  let b1 : ℚ × ℤ := if allowlocal ∧ var.llb > b0.1 then (var.llb, -2) else b0
  if usevbds ∧ var.vartype = VARTYPE_CONTINUOUS then
    match closestVlb p sol v with
    | some bi =>
      if (bi.1 > b1.1 ∨ (b1.2 < 0 ∧ bi.1 ≥ b1.1))
          ∧ (var.vlbs.getD bi.2 default).1 < v then (bi.1, (bi.2 : ℤ))
      else b1
    | none => b1
  else b1

/-- `findBestUb` (cuts.c:916): mirror image of `findBestLb` for upper
bounds. -/
def findBestUb (p : Prob) (sol : Option (ℕ → ℚ)) (v : ℕ)
    (usevbds allowlocal : Bool) : ℚ × ℤ :=
  let var := p.var v
  let b0 : ℚ × ℤ := (var.gub, -1)
  let b1 : ℚ × ℤ := if allowlocal ∧ var.lub < b0.1 then (var.lub, -2) else b0
  if usevbds ∧ var.vartype = VARTYPE_CONTINUOUS then
    match closestVub p sol v with
    | some bi =>
      if (bi.1 < b1.1 ∨ (b1.2 < 0 ∧ bi.1 ≤ b1.1))
          ∧ (var.vubs.getD bi.2 default).1 < v then (bi.1, (bi.2 : ℤ))
      else b1
    | none => b1
  else b1

/-- The result record of `determineBestBounds`: best lower/upper bound values
and types, the selected bound (`BOUNDTYPE_LOWER`/`BOUNDTYPE_UPPER`), and the
free-variable flag. -/
structure BndSel where
  bestlb : ℚ
  bestub : ℚ
  bestlbtype : ℤ
  bestubtype : ℤ
  selectedbound : ℤ
  freevariable : Bool
  deriving DecidableEq, Inhabited

/-- The automatic path of `determineBestBounds` (cuts.c:1081-1155): find
best bounds; signal a free variable if both are infinite; otherwise select
by the `boundswitch` convex combination, breaking ties global bound first,
then variable bound, then lower bound.  The `ignoresol` branch
(cuts.c:1127-1154) selects by distance from the global bounds instead. -/
def determineBestBoundsAuto (p : Prob) (sol : Option (ℕ → ℚ)) (v : ℕ)
    (boundswitch : ℚ) (usevbds allowlocal ignoresol : Bool) : BndSel :=
  let var := p.var v
  let lb := findBestLb p sol v usevbds allowlocal
  let ub := findBestUb p sol v usevbds allowlocal
  if isInf (-lb.1) ∧ isInf ub.1 then
    ⟨lb.1, ub.1, lb.2, ub.2, BOUNDTYPE_LOWER, true⟩
  else if ignoresol = false then
    let varsol := solval p sol v
    let sel :=
      if isInf ub.1 then BOUNDTYPE_LOWER
      else if isInf (-lb.1) then BOUNDTYPE_UPPER
      else if varsol < (1 - boundswitch) * lb.1 + boundswitch * ub.1 then
        BOUNDTYPE_LOWER
      else if varsol > (1 - boundswitch) * lb.1 + boundswitch * ub.1 then
        BOUNDTYPE_UPPER
      else if lb.2 = -1 then BOUNDTYPE_LOWER
      else if ub.2 = -1 then BOUNDTYPE_UPPER
      else if lb.2 ≥ 0 then BOUNDTYPE_LOWER
      else if ub.2 ≥ 0 then BOUNDTYPE_UPPER
      else BOUNDTYPE_LOWER
    ⟨lb.1, ub.1, lb.2, ub.2, sel, false⟩
  else
    let distlb := |var.glb - lb.1|
    let distub := |var.gub - ub.1|
    let sel :=
      if isInf (-lb.1) then BOUNDTYPE_UPPER
      else if ¬ lb.1 < 0 then
        (if isInf ub.1 then BOUNDTYPE_LOWER
         else if var.glb = 0 then BOUNDTYPE_LOWER
         else if distlb ≤ distub then BOUNDTYPE_LOWER
         else BOUNDTYPE_UPPER)
      else BOUNDTYPE_LOWER
    ⟨lb.1, ub.1, lb.2, ub.2, sel, false⟩

/-- `determineBestBounds` (cuts.c:973): honor a user-specified bound from the
override table `boundsfortrans`/`boundtypesfortrans` if given (> -3),
otherwise select automatically.  `bft = none` models
`boundsfortrans == NULL`. -/
def determineBestBounds (p : Prob) (sol : Option (ℕ → ℚ)) (v : ℕ)
    (boundswitch : ℚ) (usevbds allowlocal fixintegralrhs ignoresol : Bool)
    (bft : Option (ℕ → ℤ)) (btft : ℕ → ℤ) : BndSel :=
  let var := p.var v
  match bft with
  | some bf =>
    if bf v > -3 then
      if btft v = BOUNDTYPE_LOWER then
        let bestlbtype := bf v
        let bestlb :=
          if bestlbtype = -1 then var.glb
          else if bestlbtype = -2 then var.llb
          else
            let t := var.vlbs.getD (bf v).toNat default
            t.2.1 * solval p sol t.1 + t.2.2
        let ub := findBestUb p sol v (usevbds ∧ fixintegralrhs)
          (allowlocal ∧ fixintegralrhs)
        ⟨bestlb, ub.1, bestlbtype, ub.2, BOUNDTYPE_LOWER, false⟩
      else
        let bestubtype := bf v
        let bestub :=
          if bestubtype = -1 then var.gub
          else if bestubtype = -2 then var.lub
          else
            let t := var.vubs.getD (bf v).toNat default
            t.2.1 * solval p sol t.1 + t.2.2
        let lb := findBestLb p sol v (usevbds ∧ fixintegralrhs)
          (allowlocal ∧ fixintegralrhs)
        ⟨lb.1, bestub, lb.2, bestubtype, BOUNDTYPE_UPPER, false⟩
    else determineBestBoundsAuto p sol v boundswitch usevbds allowlocal
      ignoresol
  | none => determineBestBoundsAuto p sol v boundswitch usevbds allowlocal
      ignoresol

/-- `SCIPfrac` with exact semantics: `x - floor(x)`. -/
def fracQ (x : ℚ) : ℚ := x - ((⌊x⌋ : ℤ) : ℚ)

/-- `SCIPisIntegral`/`SCIPisFeasIntegral` with exact semantics. -/
abbrev isIntegralQ (x : ℚ) : Prop := x.den = 1

/-- An entry of the transformed cut: variable index, coefficient, the
complementation sign (`varsign`), the bound used (`boundtype`:
vlb/vub index, `-1` global, `-2` local), and — for the `fixintegralrhs`
re-complementation search of `cutsTransformMIR` — the best bounds and bound
types determined for this entry (the C arrays `bestlbs`/`bestubs`/
`bestlbtypes`/`bestubtypes`). -/
structure TEntry where
  idx : ℕ
  coef : ℚ
  varsign : ℤ
  boundtype : ℤ
  bestlb : ℚ
  bestub : ℚ
  bestlbtype : ℤ
  bestubtype : ℤ
  deriving DecidableEq, Inhabited

/-- Phase A of `cutsTransformMIR` (cuts.c:1252-1260): determine best bounds
for every continuous entry, aborting with `none` as soon as a free variable
is found. -/
def transformMIRContSelect (p : Prob) (sol : Option (ℕ → ℚ)) (boundswitch : ℚ)
    (usevbds allowlocal fixintegralrhs : Bool) (bft : Option (ℕ → ℤ))
    (btft : ℕ → ℤ) (contpart : List (ℕ × ℚ)) :
    Option (List ((ℕ × ℚ) × BndSel)) :=
  contpart.mapM (fun e =>
    let d := determineBestBounds p sol e.1 boundswitch usevbds allowlocal
      fixintegralrhs false bft btft
    if d.freevariable then none else some (e, d))

/-- One step of the continuous bound substitution of `cutsTransformMIR`
(cuts.c:1272-1381).  State: transformed continuous entries so far, the
integer coefficient map (merge target for vlb/vub folds), the rhs, and the
local-bounds-used flag. -/
def transformMIRContStep (p : Prob)
    (st : List TEntry × List (ℕ × ℚ) × ℚ × Bool) (ed : (ℕ × ℚ) × BndSel) :
    List TEntry × List (ℕ × ℚ) × ℚ × Bool :=
  let e := ed.1
  let d := ed.2
  if d.selectedbound = BOUNDTYPE_LOWER then
    let t : TEntry := ⟨e.1, e.2, 1, d.bestlbtype, d.bestlb, d.bestub,
      d.bestlbtype, d.bestubtype⟩
    if d.bestlbtype < 0 then
      (st.1 ++ [t], st.2.1, st.2.2.1 - e.2 * d.bestlb,
        st.2.2.2 || decide (d.bestlbtype = -2))
    else
      let vb := (p.var e.1).vlbs.getD d.bestlbtype.toNat default
      (st.1 ++ [t], updateEntry st.2.1 vb.1 (e.2 * vb.2.1),
        st.2.2.1 - e.2 * vb.2.2, st.2.2.2)
  else
    let t : TEntry := ⟨e.1, e.2, -1, d.bestubtype, d.bestlb, d.bestub,
      d.bestlbtype, d.bestubtype⟩
    if d.bestubtype < 0 then
      (st.1 ++ [t], st.2.1, st.2.2.1 - e.2 * d.bestub,
        st.2.2.2 || decide (d.bestubtype = -2))
    else
      let vb := (p.var e.1).vubs.getD d.bestubtype.toNat default
      (st.1 ++ [t], updateEntry st.2.1 vb.1 (e.2 * vb.2.1),
        st.2.2.1 - e.2 * vb.2.2, st.2.2.2)

/-- Phases C of `cutsTransformMIR` (cuts.c:1386-1425): drop integer entries
whose coefficient was cancelled to zero, then determine best bounds
(`usevbds = FALSE` for integral variables), aborting on a free variable. -/
def transformMIRIntSelect (p : Prob) (sol : Option (ℕ → ℚ)) (boundswitch : ℚ)
    (allowlocal fixintegralrhs : Bool) (bft : Option (ℕ → ℤ)) (btft : ℕ → ℤ)
    (ints : List (ℕ × ℚ)) : Option (List ((ℕ × ℚ) × BndSel)) :=
  (ints.filter (fun e => decide (¬ e.2 = 0))).mapM (fun e =>
    let d := determineBestBounds p sol e.1 boundswitch false allowlocal
      fixintegralrhs false bft btft
    if d.freevariable then none else some (e, d))

/-- Phase D of `cutsTransformMIR` (cuts.c:1431-1460): bound substitution for
the remaining integer entries using only standard bounds. -/
def transformMIRIntStep (st : List TEntry × ℚ × Bool) (ed : (ℕ × ℚ) × BndSel) :
    List TEntry × ℚ × Bool :=
  let e := ed.1
  let d := ed.2
  if d.selectedbound = BOUNDTYPE_LOWER then
    (st.1 ++ [⟨e.1, e.2, 1, d.bestlbtype, d.bestlb, d.bestub, d.bestlbtype,
        d.bestubtype⟩],
      st.2.1 - e.2 * d.bestlb, st.2.2 || decide (d.bestlbtype = -2))
  else
    (st.1 ++ [⟨e.1, e.2, -1, d.bestubtype, d.bestlb, d.bestub, d.bestlbtype,
        d.bestubtype⟩],
      st.2.1 - e.2 * d.bestub, st.2.2 || decide (d.bestubtype = -2))

/-- Candidate evaluation of the `fixintegralrhs` search
(cuts.c:1478-1547): for an entry whose complementation may be switched
(standard bound used, opposite standard bound finite), the violation gain
and the new fractionality reached by switching; `none` if the entry is not
admissible or the new fractionality is out of range. -/
def firCandidate (p : Prob) (sol : Option (ℕ → ℚ)) (fc : ℕ)
    (minfrac maxfrac f0 rhs : ℚ) (t : TEntry) : Option (ℚ × ℚ) :=
  if t.boundtype < 0 ∧
      ((t.varsign = 1 ∧ ¬ isInf t.bestub ∧ t.bestubtype < 0) ∨
        (t.varsign = -1 ∧ ¬ isInf (-t.bestlb) ∧ t.bestlbtype < 0)) then
    let newrhs := rhs + (t.varsign : ℚ) * t.coef * (t.bestlb - t.bestub)
    let newf0 := fracQ newrhs
    if newf0 < minfrac ∨ newf0 > maxfrac then none
    else
      let fj := if fc ≤ t.idx then |t.coef| else fracQ ((t.varsign : ℚ) * t.coef)
      let newfj :=
        if fc ≤ t.idx then |t.coef| else fracQ (-(t.varsign : ℚ) * t.coef)
      let solv := solval p sol t.idx
      let viol := f0 -
        fj * (if t.varsign = 1 then solv - t.bestlb else t.bestub - solv)
      let newviol := newf0 -
        newfj * (if t.varsign = -1 then solv - t.bestlb else t.bestub - solv)
      some (newviol - viol, newf0)
  else none

/-- The winner selection of the `fixintegralrhs` search (cuts.c:1475-1547):
prefer larger violation gain, breaking near-ties by smaller new
fractionality; `-1` if no admissible candidate. -/
def firSelect (cands : List (Option (ℚ × ℚ))) : ℤ × ℚ × ℚ :=
  cands.enum.foldl (fun acc c =>
    match c.2 with
    | none => acc
    | some vn =>
      if vn.1 > acc.2.1 ∨ (vn.1 ≥ acc.2.1 ∧ vn.2 < acc.2.2) then
        ((c.1 : ℤ), vn.1, vn.2)
      else acc) (-1, -(10 ^ 100 : ℚ), 1)

/-- Applying the chosen complementation switch (cuts.c:1549-1573). -/
def firApply (entries : List TEntry) (rhs : ℚ) (lbu : Bool) (besti : ℤ) :
    List TEntry × ℚ × Bool :=
  if besti < 0 then (entries, rhs, lbu)
  else
    match entries.get? besti.toNat with
    | none => (entries, rhs, lbu)
    | some t =>
      let newrhs := rhs + (t.varsign : ℚ) * t.coef * (t.bestlb - t.bestub)
      let t2 :=
        if t.varsign = 1 then { t with boundtype := t.bestubtype, varsign := -1 }
        else { t with boundtype := t.bestlbtype, varsign := 1 }
      (entries.set besti.toNat t2, newrhs,
        lbu || decide (t2.boundtype = -2))

/-- The `fixintegralrhs` block of `cutsTransformMIR` (cuts.c:1462-1575): if
the rhs fractionality is outside `[minfrac, maxfrac]`, switch the
complementation of the single variable maximizing the violation gain among
those that bring it back into range. -/
def fixIntegralRhsBlock (p : Prob) (sol : Option (ℕ → ℚ)) (fc : ℕ)
    (minfrac maxfrac : ℚ) (doit : Bool) (entries : List TEntry) (rhs : ℚ)
    (lbu : Bool) : List TEntry × ℚ × Bool :=
  if doit then
    let f0 := fracQ rhs
    if f0 < minfrac ∨ f0 > maxfrac then
      let sel := firSelect
        (entries.map (firCandidate p sol fc minfrac maxfrac f0 rhs))
      firApply entries rhs lbu sel.1
    else (entries, rhs, lbu)
  else (entries, rhs, lbu)

/-- `cutsTransformMIR` (cuts.c:1188): sort the cut with continuous variables
first; bound-select and complement the continuous variables (variable bounds
fold a coefficient into the referenced integer variable); drop cancelled
integer coefficients; bound-select and complement the integer variables with
standard bounds only; optionally fix the rhs fractionality by
re-complementing one variable.  `none` models `*freevariable = TRUE`.  All
call sites in cuts.c pass `ignoresol = FALSE`, which this embedding fixes
(the `ignoresol` error path of the fixintegralrhs search, cuts.c:1529-1534,
is unreachable from the entry points). -/
def cutsTransformMIR (p : Prob) (sol : Option (ℕ → ℚ)) (boundswitch : ℚ)
    (usevbds allowlocal fixintegralrhs : Bool) (bft : Option (ℕ → ℤ))
    (btft : ℕ → ℤ) (minfrac maxfrac : ℚ) (entries : List (ℕ × ℚ)) (rhs : ℚ) :
    Option (List TEntry × ℚ × Bool) :=
  let fc := p.firstcontvar
  let sorted := sortDownIntReal entries
  let contpart := sorted.takeWhile (fun e => decide (fc ≤ e.1))
  let intpart := sorted.dropWhile (fun e => decide (fc ≤ e.1))
  match transformMIRContSelect p sol boundswitch usevbds allowlocal
      fixintegralrhs bft btft contpart with
  | none => none
  | some contsel =>
    let cres := contsel.foldl (transformMIRContStep p) ([], intpart, rhs, false)
    match transformMIRIntSelect p sol boundswitch allowlocal fixintegralrhs
        bft btft cres.2.1 with
    | none => none
    | some intsel =>
      let ires := intsel.foldl transformMIRIntStep
        ([], cres.2.2.1, cres.2.2.2)
      some (fixIntegralRhsBlock p sol fc minfrac maxfrac fixintegralrhs
        (cres.1 ++ ires.1) ires.2.1 ires.2.2)

/-- The standard bound moved to the rhs for a rounded coefficient
(cuts.c:1741-1768 and 1825-1852): the global or local lower bound if the
lower bound was used (`varsign = +1`), else the upper bound. -/
def boundOfVar (p : Prob) (v : ℕ) (varsign boundtype : ℤ) : ℚ :=
  let var := p.var v
  if varsign = 1 then (if boundtype = -1 then var.glb else var.llb)
  else (if boundtype = -1 then var.gub else var.lub)

/-- `cutsRoundMIR` (cuts.c:1640) at list level: integer entries are rounded
with `cutsRoundMIRIntCoef` (zero results dropped) and their bound
contribution moved to the rhs; continuous entries are rounded with
`cutsRoundMIRContCoef`, where a variable bound folds `-cutaj * b` into the
referenced integer variable's coefficient and `cutaj * d` into the rhs.
The C processes integers first (looping backwards) and removes entries by
swapping, which only permutes the array; this embedding keeps continuous
entries first as in the C layout. -/
def cutsRoundMIR (p : Prob) (tentries : List TEntry) (rhs0 f0 : ℚ) :
    List (ℕ × ℚ) × ℚ :=
  let fc := p.firstcontvar
  let ints := tentries.filter (fun t => decide (t.idx < fc))
  let conts := tentries.filter (fun t => decide (fc ≤ t.idx))
  let intres := ints.foldl (fun (acc : List (ℕ × ℚ) × ℚ) t =>
      let cutaj := cutsRoundMIRIntCoef t.varsign t.coef f0
      if cutaj = 0 then acc
      else (acc.1 ++ [(t.idx, cutaj)],
        acc.2 + cutaj * boundOfVar p t.idx t.varsign t.boundtype))
    ([], rhs0)
  let res := conts.foldl
    (fun (acc : List (ℕ × ℚ) × List (ℕ × ℚ) × ℚ) t =>
      let cutaj := cutsRoundMIRContCoef t.varsign t.coef f0
      if cutaj = 0 then acc
      else if t.boundtype < 0 then
        (acc.1 ++ [(t.idx, cutaj)], acc.2.1,
          acc.2.2 + cutaj * boundOfVar p t.idx t.varsign t.boundtype)
      else
        let vb :=
          if t.varsign = 1 then (p.var t.idx).vlbs.getD t.boundtype.toNat default
          else (p.var t.idx).vubs.getD t.boundtype.toNat default
        (acc.1 ++ [(t.idx, cutaj)],
          updateEntry acc.2.1 vb.1 (-(cutaj * vb.2.1)),
          acc.2.2 + cutaj * vb.2.2))
    ([], intres.1, intres.2)
  (res.1 ++ res.2.1, res.2.2)

/-- `cutsSubstituteMIR` (cuts.c:1951): for every aggregated source row, the
implicit slack's coefficient `a'_r = slacksign * scale * weight` is rounded
with the integer rule if the row and its un-substituted side are integral,
else with the continuous rule; unless zero, the slack is eliminated by
adding `-slacksign * cutar` times the row's coefficients into the cut and
folding the row's (pre-rounded, for integral rows) side into the rhs. -/
def cutsSubstituteMIR (rows : List LPRow) (rowweights : List ℚ)
    (slacksign : List ℤ) (rowsinds : List ℤ) (scale : ℚ)
    (entries : List (ℕ × ℚ)) (rhs : ℚ) (f0 : ℚ) : List (ℕ × ℚ) × ℚ :=
  (List.zip rowsinds (List.zip slacksign rowweights)).foldl
    (fun (acc : List (ℕ × ℚ) × ℚ) rr =>
      let sgn := rr.2.1
      let w := rr.2.2
      let row := rows.getD rr.1.toNat default
      let ar := (sgn : ℚ) * scale * w
      let cutar :=
        if row.integral ∧
            ((sgn = 1 ∧ isIntegralQ (row.rhs - row.constant)) ∨
              (sgn = -1 ∧ isIntegralQ (row.lhs - row.constant))) then
          let downar : ℚ := ((⌊ar⌋ : ℤ) : ℚ)
          let fr := ar - downar
          if fr ≤ f0 then downar else downar + (fr - f0) * (1 / (1 - f0))
        else if 0 ≤ ar then 0
        else ar * (1 / (1 - f0))
      if cutar = 0 then acc
      else
        let mul := -(sgn : ℚ) * cutar
        let merged := varVecAddScaledRowCoefs acc.1 row.cols mul
        if sgn = 1 then
          let sideval :=
            if row.integral then ((⌊row.rhs - row.constant⌋ : ℤ) : ℚ)
            else row.rhs - row.constant
          (merged, acc.2 - cutar * sideval)
        else
          let sideval :=
            if row.integral then ((⌈row.lhs - row.constant⌉ : ℤ) : ℚ)
            else row.lhs - row.constant
          (merged, acc.2 + cutar * sideval))
    (entries, rhs)

/-- The result of a cut-generation entry point: success flag, the sparse cut,
its rhs, locality and rank.  (The efficacy output uses the external norm
routine `SCIPgetVectorEfficacyNorm` and is not modelled; no claim mentions
it.)  On failure the C leaves the output buffers in an unspecified state;
the entries/rhs fields are then meaningless. -/
structure CutResult where
  success : Bool
  entries : List (ℕ × ℚ)
  rhs : ℚ
  islocal : Bool
  rank : ℤ
  deriving DecidableEq, Inhabited

/-- `SCIPcalcMIR` (cuts.c:2097): scale the aggregation row, clean it,
transform (abort on a free variable), reject an out-of-range rhs
fractionality or an excessive `|scale|/(1-f0)`, round, substitute the row
slacks back, clean again, and report success.  `ignoresol` is `FALSE` at
this call site (cuts.c:2182). -/
def SCIPcalcMIR (p : Prob) (sol : Option (ℕ → ℚ)) (boundswitch : ℚ)
    (usevbds allowlocal fixintegralrhs : Bool) (bft : Option (ℕ → ℤ))
    (btft : ℕ → ℤ) (minfrac maxfrac scale : ℚ) (ar : AggrRow) : CutResult :=
  let entries0 := ar.entries.map (fun e => (e.1, e.2 * scale))
  let rhs0 := scale * ar.rhs
  let c1 := cleanupCut entries0 rhs0
  match cutsTransformMIR p sol boundswitch usevbds allowlocal fixintegralrhs
      bft btft minfrac maxfrac c1.1 c1.2 with
  | none => ⟨false, c1.1, c1.2, ar.islocal, ar.rank⟩
  | some tr =>
    let islocal := ar.islocal || tr.2.2
    let downrhs : ℚ := ((⌊tr.2.1⌋ : ℤ) : ℚ)
    let f0 := tr.2.1 - downrhs
    if f0 < minfrac ∨ f0 > maxfrac then ⟨false, c1.1, c1.2, islocal, ar.rank⟩
    else if |scale| / (1 - f0) > MAXCMIRSCALE then
      ⟨false, c1.1, c1.2, islocal, ar.rank⟩
    else
      let r1 := cutsRoundMIR p tr.1 downrhs f0
      let r2 := cutsSubstituteMIR p.rows ar.rowweights ar.slacksign
        ar.rowsinds scale r1.1 r1.2 f0
      let r3 := cleanupCut r2.1 r2.2
      ⟨true, r3.1, r3.2, islocal, ar.rank + 1⟩

/-- The continuous bound-finding pass of `cutsTransformStrongCG`
(cuts.c:4997-5027): a continuous entry with positive coefficient must get a
finite best lower bound (sign `+1`), one with negative coefficient a finite
best upper bound (sign `-1`); otherwise the transformation fails (`none`).
The result per entry is (entry, best bound, boundtype, varsign).  An exactly
zero coefficient (unreachable after `cleanupCut`) leaves the C entry's
`varsign`/`boundtype` unset; it is modelled as a standard-bound `+1` entry
with bound `0`. -/
def transformStrongCGContSelect (p : Prob) (sol : Option (ℕ → ℚ))
    (usevbds allowlocal : Bool) (contpart : List (ℕ × ℚ)) :
    Option (List ((ℕ × ℚ) × ℚ × ℤ × ℤ)) :=
  contpart.mapM (fun e =>
    if 0 < e.2 then
      let lb := findBestLb p sol e.1 usevbds allowlocal
      if isInf (-lb.1) then none else some (e, lb.1, lb.2, 1)
    else if e.2 < 0 then
      let ub := findBestUb p sol e.1 usevbds allowlocal
      if isInf ub.1 then none else some (e, ub.1, ub.2, -1)
    else some (e, 0, -1, 1))

/-- The continuous bound substitution of `cutsTransformStrongCG`
(cuts.c:5039-5100): a standard bound moves `coef * bound` to the rhs; a
variable bound moves `coef * d` to the rhs and folds `coef * b` into the
referenced integer variable's coefficient. -/
def transformStrongCGContStep (p : Prob)
    (st : List TEntry × List (ℕ × ℚ) × ℚ × Bool)
    (ed : (ℕ × ℚ) × ℚ × ℤ × ℤ) : List TEntry × List (ℕ × ℚ) × ℚ × Bool :=
  let e := ed.1
  let bd := ed.2.1
  let bt := ed.2.2.1
  let vs := ed.2.2.2
  let t : TEntry := ⟨e.1, e.2, vs, bt, bd, bd, bt, bt⟩
  if bt < 0 then
    (st.1 ++ [t], st.2.1, st.2.2.1 - e.2 * bd,
      st.2.2.2 || decide (bt = -2))
  else
    let vb :=
      if vs = 1 then (p.var e.1).vlbs.getD bt.toNat default
      else (p.var e.1).vubs.getD bt.toNat default
    (st.1 ++ [t], updateEntry st.2.1 vb.1 (e.2 * vb.2.1),
      st.2.2.1 - e.2 * vb.2.2, st.2.2.2)

/-- The integer pass of `cutsTransformStrongCG` (cuts.c:5107-5168): drop
cancelled (zero) integer coefficients, then `determineBestBounds` with
`usevbds = FALSE`, `fixintegralrhs = FALSE`, `ignoresol = FALSE` and no
override table (cuts.c:5134); abort on a free variable, else substitute the
selected standard bound. -/
def transformStrongCGIntSelect (p : Prob) (sol : Option (ℕ → ℚ))
    (boundswitch : ℚ) (allowlocal : Bool) (ints : List (ℕ × ℚ)) :
    Option (List ((ℕ × ℚ) × BndSel)) :=
  (ints.filter (fun e => decide (¬ e.2 = 0))).mapM (fun e =>
    let d := determineBestBounds p sol e.1 boundswitch false allowlocal
      false false none (fun _ => 0)
    if d.freevariable then none else some (e, d))

/-- `cutsTransformStrongCG` (cuts.c:4950): like the MIR transform but the
continuous variables always take the bound making their transformed
coefficient positive, and there is no `fixintegralrhs` adjustment. -/
def cutsTransformStrongCG (p : Prob) (sol : Option (ℕ → ℚ)) (boundswitch : ℚ)
    (usevbds allowlocal : Bool) (entries : List (ℕ × ℚ)) (rhs : ℚ) :
    Option (List TEntry × ℚ × Bool) :=
  let fc := p.firstcontvar
  let sorted := sortDownIntReal entries
  let contpart := sorted.takeWhile (fun e => decide (fc ≤ e.1))
  let intpart := sorted.dropWhile (fun e => decide (fc ≤ e.1))
  match transformStrongCGContSelect p sol usevbds allowlocal contpart with
  | none => none
  | some contsel =>
    let cres := contsel.foldl (transformStrongCGContStep p)
      ([], intpart, rhs, false)
    match transformStrongCGIntSelect p sol boundswitch allowlocal
        cres.2.1 with
    | none => none
    | some intsel =>
      let ires := intsel.foldl transformMIRIntStep
        ([], cres.2.2.1, cres.2.2.2)
      some (cres.1 ++ ires.1, ires.2.1, ires.2.2)

/-- `cutsRoundStrongCG` (cuts.c:5235) at list level: integer entries are
rounded with `cutsRoundStrongCGIntCoef` (zero results dropped) and their
bound contribution moved to the rhs.  The continuous entries are then
discarded unconditionally (cuts.c:5367-5411; their transformed coefficients
are asserted to be zero in debug builds only). -/
def cutsRoundStrongCG (p : Prob) (tentries : List TEntry) (rhs0 f0 : ℚ)
    (k : ℤ) : List (ℕ × ℚ) × ℚ :=
  let fc := p.firstcontvar
  let ints := tentries.filter (fun t => decide (t.idx < fc))
  ints.foldl (fun (acc : List (ℕ × ℚ) × ℚ) t =>
      let cutaj := cutsRoundStrongCGIntCoef t.varsign t.coef f0 k
      if cutaj = 0 then acc
      else (acc.1 ++ [(t.idx, cutaj)],
        acc.2 + cutaj * boundOfVar p t.idx t.varsign t.boundtype))
    ([], rhs0)

/-- `cutsSubstituteStrongCG` (cuts.c:5434): slack substitution with the
Strong-CG rounding rule for integral rows; continuous slacks are skipped
(their coefficient is nonnegative in a correct run and rounds to zero). -/
def cutsSubstituteStrongCG (rows : List LPRow) (rowweights : List ℚ)
    (slacksign : List ℤ) (rowsinds : List ℤ) (scale : ℚ)
    (entries : List (ℕ × ℚ)) (rhs : ℚ) (f0 : ℚ) (k : ℤ) :
    List (ℕ × ℚ) × ℚ :=
  (List.zip rowsinds (List.zip slacksign rowweights)).foldl
    (fun (acc : List (ℕ × ℚ) × ℚ) rr =>
      let sgn := rr.2.1
      let w := rr.2.2
      let row := rows.getD rr.1.toNat default
      let ar := (sgn : ℚ) * scale * w
      if row.integral then
        let downar : ℚ := ((⌊ar⌋ : ℤ) : ℚ)
        let fr := ar - downar
        let cutar :=
          if fr ≤ f0 then downar
          else downar + ((strongCGp fr f0 k : ℤ) : ℚ) / ((k : ℚ) + 1)
        if cutar = 0 then acc
        else
          let mul := -(sgn : ℚ) * cutar
          let merged := varVecAddScaledRowCoefs acc.1 row.cols mul
          if sgn = 1 then
            let sideval :=
              if row.integral then ((⌊row.rhs - row.constant⌋ : ℤ) : ℚ)
              else row.rhs - row.constant
            (merged, acc.2 - cutar * sideval)
          else
            let sideval :=
              if row.integral then ((⌈row.lhs - row.constant⌉ : ℤ) : ℚ)
              else row.lhs - row.constant
            (merged, acc.2 + cutar * sideval)
      else acc)
    (entries, rhs)

/-- `SCIPcalcStrongCG` (cuts.c:5580): scale the aggregation row, clean,
transform (abort on a free variable), reject an out-of-range rhs
fractionality, compute `k = ceil(1/f0) - 1`, round, substitute the row
slacks, clean, and report success.  There is no `MAXCMIRSCALE` guard in this
pipeline. -/
def SCIPcalcStrongCG (p : Prob) (sol : Option (ℕ → ℚ)) (boundswitch : ℚ)
    (usevbds allowlocal : Bool) (minfrac maxfrac scale : ℚ) (ar : AggrRow) :
    CutResult :=
  let entries0 := ar.entries.map (fun e => (e.1, e.2 * scale))
  let rhs0 := scale * ar.rhs
  let c1 := cleanupCut entries0 rhs0
  match cutsTransformStrongCG p sol boundswitch usevbds allowlocal c1.1
      c1.2 with
  | none => ⟨false, c1.1, c1.2, ar.islocal, ar.rank⟩
  | some tr =>
    let islocal := ar.islocal || tr.2.2
    let downrhs : ℚ := ((⌊tr.2.1⌋ : ℤ) : ℚ)
    let f0 := tr.2.1 - downrhs
    if f0 < minfrac ∨ f0 > maxfrac then ⟨false, c1.1, c1.2, islocal, ar.rank⟩
    else
      let k := strongCGk f0
      let r1 := cutsRoundStrongCG p tr.1 downrhs f0 k
      let r2 := cutsSubstituteStrongCG p.rows ar.rowweights ar.slacksign
        ar.rowsinds scale r1.1 r1.2 f0 k
      let r3 := cleanupCut r2.1 r2.2
      ⟨true, r3.1, r3.2, islocal, ar.rank + 1⟩

/-- `MINDELTA` (cuts.c:2721). -/
def MINDELTAQ : ℚ := 1 / 10 ^ 3

/-- `MAXDELTA` (cuts.c:2722). -/
def MAXDELTAQ : ℚ := 1 / 10 ^ 9

/-- `MAXDYNPROGSPACE` (cuts.c:2724). -/
def MAXDYNPROGSPACEZ : ℤ := 1000000

/-- `SCIPrelDiff`: `(x - y) / max(|x|, |y|, 1)`. -/
def relDiffQ (x y : ℚ) : ℚ := (x - y) / max (max |x| |y|) 1

/-- `isIntegralScalar` (cuts.c:3862) with the deltas it is always called
with in `getFlowCover` (`-MINDELTA`, `MAXDELTA`). -/
def isIntegralScalarQ (val scalar : ℚ) : Prop :=
  relDiffQ (val * scalar) ((⌊val * scalar⌋ : ℤ) : ℚ) ≤ MAXDELTAQ ∨
    relDiffQ (val * scalar) ((⌈val * scalar⌉ : ℤ) : ℚ) ≥ -MINDELTAQ

instance (val scalar : ℚ) : Decidable (isIntegralScalarQ val scalar) :=
  inferInstanceAs (Decidable (_ ∨ _))

/-- `getIntegralVal` (cuts.c:3887): the integer the scaled value is taken
to: the ceiling when within `MINDELTA` below it, else the floor (the C cast
of the nonnegative `floor` result to `SCIP_Longint` is exact). -/
def getIntegralValQ (val scalar : ℚ) : ℤ :=
  if relDiffQ (val * scalar) ((⌈val * scalar⌉ : ℤ) : ℚ) ≥ -MINDELTAQ then
    ⌈val * scalar⌉
  else ⌊val * scalar⌋

/-- The fields of the SNF relaxation (`SNF_RELAXATION`) read by
`getFlowCover`: per transformed variable its `N1`/`N2` sign (`+1`/`-1`), the
solution value of the gating binary, and the flow capacity (vub
coefficient); plus the transformed rhs.  The compensated double-double
accumulators of the C code are exact sums over `ℚ`. -/
structure SNF where
  transvarcoefs : List ℤ
  transbinvarsolvals : List ℚ
  transvarvubcoefs : List ℚ
  transrhs : ℚ
  deriving DecidableEq, Inhabited

/-- `ntransvars`. -/
def SNF.ntransvars (snf : SNF) : ℕ := snf.transvarcoefs.length

/-- `transvarcoefs[j]`. -/
def SNF.coef (snf : SNF) (j : ℕ) : ℤ := snf.transvarcoefs.getD j 0

/-- `transbinvarsolvals[j]`. -/
def SNF.solv (snf : SNF) (j : ℕ) : ℚ := snf.transbinvarsolvals.getD j 0

/-- `transvarvubcoefs[j]`. -/
def SNF.vub (snf : SNF) (j : ℕ) : ℚ := snf.transvarvubcoefs.getD j 0

/-- The advance-fixing of `getFlowCover` (cuts.c:4081-4139) for one
transformed variable: status `-1` (not in cover) if its capacity is zero;
an unfixed knapsack item (status still `0` from the cleared array) if the
gating binary's solution value is fractional; else `+1` (in cover) iff the
binary is at `1` (`x*_j > 0.5`). -/
def fixClass (coef : ℤ) (solv u : ℚ) : ℤ :=
  if u = 0 then -1
  else if ¬ isIntegralQ solv then 0
  else if coef = 1 ∧ solv < 1 / 2 then -1
  else if coef = 1 ∧ solv > 1 / 2 then 1
  else if coef = -1 ∧ solv > 1 / 2 then 1
  else -1

/-- The statuses after the advance-fixing pass (`0` marks the unfixed
items). -/
def fixedStatuses (snf : SNF) : List ℤ :=
  (List.range snf.ntransvars).map
    (fun j => fixClass (snf.coef j) (snf.solv j) (snf.vub j))

/-- The unfixed knapsack items (cuts.c:4096-4107): nonzero capacity and
fractional gating binary, in index order. -/
def flowCoverItems (snf : SNF) : List ℕ :=
  (List.range snf.ntransvars).filter
    (fun j => decide (¬ snf.vub j = 0) && decide (¬ isIntegralQ (snf.solv j)))

/-- The flow-cover weight accumulated by the advance fixing
(cuts.c:4116-4129): `+u_j` for fixed `C1` members, `-u_j` for fixed `C2`
members. -/
def fixWeight (snf : SNF) : ℚ :=
  ((List.range snf.ntransvars).map (fun j =>
    if snf.vub j = 0 then 0
    else if ¬ isIntegralQ (snf.solv j) then 0
    else if snf.coef j = 1 ∧ snf.solv j > 1 / 2 then snf.vub j
    else if snf.coef j = -1 ∧ snf.solv j > 1 / 2 then -(snf.vub j)
    else 0)).sum

/-- `n1itemsweight` (cuts.c:4100-4103): total capacity of the unfixed `N1`
items. -/
def n1itemsWeight (snf : SNF) : ℚ :=
  ((flowCoverItems snf).map
    (fun j => if snf.coef j = 1 then snf.vub j else 0)).sum

/-- The knapsack profits of `KP^SNF_rat` (cuts.c:4182-4193): `1 - x*_j` for
`N1` items, `x*_j` for `N2` items. -/
def flowCoverProfits (snf : SNF) : List ℚ :=
  (flowCoverItems snf).map
    (fun j => if snf.coef j = 1 then 1 - snf.solv j else snf.solv j)

/-- One selection step of `SCIPsolveKnapsackApproximatelyLT`
(cuts.c:3769): an item is taken iff the running solution weight plus its
weight stays strictly below the capacity (`SCIPisFeasLT`, exact `<` here);
the C's two selection loops together are exactly this test applied to every
item in pass order.  The external weighted-median selection
(`SCIPselectWeightedDownRealRealInt`, not under `src/`) rearranges the items
by profit/weight ratio; the rearranged item list is the `order` parameter of
the functions below. -/
def approxStep (weights : ℕ → ℚ) (capacity : ℚ)
    (acc : (List ℕ × List ℕ) × ℚ) (j : ℕ) : (List ℕ × List ℕ) × ℚ :=
  if acc.2 + weights j < capacity then
    ((acc.1.1 ++ [j], acc.1.2), acc.2 + weights j)
  else ((acc.1.1, acc.1.2 ++ [j]), acc.2)

/-- The selection loops of `SCIPsolveKnapsackApproximatelyLT`, as one fold of
`approxStep` over the rearranged items, starting from an empty solution of
weight zero. -/
def solveKnapsackApproximatelyLT (weights : ℕ → ℚ) (capacity : ℚ)
    (order : List ℕ) : List ℕ × List ℕ :=
  (order.foldl (approxStep weights capacity) (([], []), 0)).1

/-- The selected-item loop of `buildFlowCover` (cuts.c:3950-3966): a
selected `N1` item leaves the cover (`-1`), a selected `N2` item enters
`C2` (`+1`, weight `-u_j`). -/
def bfcSolStep (snf : SNF) (acc : List ℤ × ℚ) (j : ℕ) : List ℤ × ℚ :=
  if snf.coef j = 1 then (acc.1.set j (-1), acc.2)
  else (acc.1.set j 1, acc.2 - snf.vub j)

/-- The unselected-item loop of `buildFlowCover` (cuts.c:3967-3983): an
unselected `N1` item enters `C1` (`+1`, weight `+u_j`), an unselected `N2`
item stays out of the cover (`-1`). -/
def bfcNonsolStep (snf : SNF) (acc : List ℤ × ℚ) (j : ℕ) : List ℤ × ℚ :=
  if snf.coef j = 1 then (acc.1.set j 1, acc.2 + snf.vub j)
  else (acc.1.set j (-1), acc.2)

/-- `buildFlowCover` (cuts.c:3916): fold a knapsack solution into the
statuses via `bfcSolStep`/`bfcNonsolStep` and derive
`lambda = flowcoverweight - transrhs`.  Returns (statuses, weight,
lambda). -/
def buildFlowCover (snf : SNF) (solitems nonsolitems : List ℕ)
    (statuses : List ℤ) (fweight : ℚ) : List ℤ × ℚ × ℚ :=
  let s2 := nonsolitems.foldl (bfcNonsolStep snf)
    (solitems.foldl (bfcSolStep snf) (statuses, fweight))
  (s2.1, s2.2, s2.2 - snf.transrhs)

/-- Result of `getFlowCover`: the found flag, the per-variable cover
statuses, and `lambda`.  When `found = false` the C leaves `*lambda`
unset; the field is then meaningless (`0` here). -/
structure FlowCoverResult where
  found : Bool
  statuses : List ℤ
  lambda : ℚ
  deriving DecidableEq

/-- `transcapacityreal` (cuts.c:4196): `-rhs + flowcoverweight +
n1itemsweight` after the advance fixing. -/
def flowCoverCapacity (snf : SNF) : ℚ :=
  -snf.transrhs + fixWeight snf + n1itemsWeight snf

/-- The scaling-factor search of `getFlowCover` (cuts.c:4226-4237): scalar
`1` if all weights are already (near-)integral, else whatever the external
`SCIPcalcIntegralScalar` returns. -/
def flowCoverScaleres (snf : SNF) (calcIntegralScalar : List ℚ → Option ℚ) :
    Option ℚ :=
  if ∀ w ∈ (flowCoverItems snf).map snf.vub, isIntegralScalarQ w 1 then some 1
  else calcIntegralScalar ((flowCoverItems snf).map snf.vub)

/-- `transcapacityint` (cuts.c:4256-4262): the scaled capacity, minus one
when the scaled capacity is itself (near-)integral; the C cast of the
positive product truncates like the floor. -/
def flowCoverCapInt (snf : SNF) (scalar : ℚ) : ℤ :=
  if isIntegralScalarQ (flowCoverCapacity snf) scalar then
    getIntegralValQ (flowCoverCapacity snf) scalar - 1
  else ⌊flowCoverCapacity snf * scalar⌋

/-- The dynamic-programming admissibility test (cuts.c:4267-4269):
`transcapacityint * nitems <= MAXDYNPROGSPACE` and
`(nitems+1)*(transcapacityint+1) <= INT_MAX/8` in real arithmetic. -/
def flowCoverDpOk (snf : SNF) (scalar : ℚ) : Prop :=
  flowCoverCapInt snf scalar * ((flowCoverItems snf).length : ℤ) ≤
      MAXDYNPROGSPACEZ ∧
    (((flowCoverItems snf).length : ℚ) + 1) *
        ((flowCoverCapInt snf scalar : ℤ) + 1 : ℤ) ≤ 2147483647 / 8

instance (snf : SNF) (scalar : ℚ) : Decidable (flowCoverDpOk snf scalar) :=
  inferInstanceAs (Decidable (_ ∧ _))

/-- `getFlowCover` (cuts.c:3995).  External collaborators are parameters:
`calcIntegralScalar` is `SCIPcalcIntegralScalar` (misc layer, not under
`src/`; `none` = no suitable scalar), `solveExact` is
`SCIPsolveKnapsackExactly` (cons_knapsack.c, not under `src/`; it receives
the integer weights, the profits, the capacity and the item list and
returns a (selected, unselected) partition, or `none` when it reports
failure), and `order` is the rearranged item list used by the approximate
solver.  Control flow: advance-fix integral-solution variables; abort
(`found = false`) if the knapsack capacity after fixing is nonpositive
(cuts.c:4203, the C tests `transcapacityreal/10` against zero — equivalent
to testing the capacity itself in exact arithmetic); succeed immediately if
no item is left; otherwise scale the weights to integers if possible and
solve the knapsack exactly by dynamic programming when the state space
permits, approximately otherwise; if the built cover has `lambda ≤ 0`
(a scaling artifact of the exact solve), re-solve approximately and rebuild
from the after-fixing weight before reporting `found = true`. -/
def getFlowCover (snf : SNF) (calcIntegralScalar : List ℚ → Option ℚ)
    (solveExact : List ℤ → List ℚ → ℤ → List ℕ → Option (List ℕ × List ℕ))
    (order : List ℕ) : FlowCoverResult :=
  let statuses0 := fixedStatuses snf
  let items := flowCoverItems snf
  let fweight := fixWeight snf
  if flowCoverCapacity snf / 10 ≤ 0 then ⟨false, statuses0, 0⟩
  else if items.length = 0 then ⟨true, statuses0, fweight - snf.transrhs⟩
  else
    let approx := solveKnapsackApproximatelyLT snf.vub (flowCoverCapacity snf)
      order
    match flowCoverScaleres snf calcIntegralScalar with
    | some scalar =>
      let dpres :=
        if flowCoverDpOk snf scalar then
          solveExact (items.map (fun j => getIntegralValQ (snf.vub j) scalar))
            (flowCoverProfits snf) (flowCoverCapInt snf scalar) items
        else none
      match dpres with
      | some sn =>
        let b1 := buildFlowCover snf sn.1 sn.2 statuses0 fweight
        if b1.2.2 ≤ 0 then
          let b2 := buildFlowCover snf approx.1 approx.2 b1.1 fweight
          ⟨true, b2.1, b2.2.2⟩
        else ⟨true, b1.1, b1.2.2⟩
      | none =>
        let b1 := buildFlowCover snf approx.1 approx.2 statuses0 fweight
        if b1.2.2 ≤ 0 then
          let b2 := buildFlowCover snf approx.1 approx.2 b1.1 fweight
          ⟨true, b2.1, b2.2.2⟩
        else ⟨true, b1.1, b1.2.2⟩
    | none =>
      let b1 := buildFlowCover snf approx.1 approx.2 statuses0 fweight
      if b1.2.2 ≤ 0 then
        let b2 := buildFlowCover snf approx.1 approx.2 b1.1 0
        ⟨true, b2.1, b2.2.2⟩
      else ⟨true, b1.1, b1.2.2⟩

/-- The coefficient a sparse vector assigns to a variable: the sum of the
values stored under its index (a single entry when the no-duplicate
invariant holds, and `0` when absent). -/
def coefOf (entries : List (ℕ × ℚ)) (v : ℕ) : ℚ :=
  ((entries.filter (fun e => decide (e.1 = v))).map (fun e => e.2)).sum

/-- The variable indices of a sparse vector, in storage order. -/
def keysOf (entries : List (ℕ × ℚ)) : List ℕ := entries.map (fun e => e.1)

/-- A two-variable row used as concrete input in counterexamples and
witnesses: `0 ≤ x0 + x1 ≤ 1`. -/
def rowTwo : LPRow :=
  { cols := [(0, 1), (1, 1)], lhs := 0, rhs := 1, constant := 0,
    integral := false, rowlocal := false, modifiable := false, rank := 0,
    lppos := 0, basisstat := 1 }

/-- A one-variable inequality row with distinct finite sides,
`0 ≤ x0 ≤ 1`, used as concrete input. -/
def rowOne : LPRow :=
  { cols := [(0, 1)], lhs := 0, rhs := 1, constant := 0, integral := false,
    rowlocal := false, modifiable := false, rank := 0, lppos := 0,
    basisstat := 1 }

/-- A concrete aggregation row with one source row at LP position 5. -/
def aggrRowA : AggrRow :=
  { entries := [(0, 1)], rhs := 0, rowsinds := [5], slacksign := [1],
    rowweights := [1], rank := 0, islocal := false }

/-- The same aggregation row as `aggrRowA` except its source row sits at LP
position 7. -/
def aggrRowB : AggrRow :=
  { entries := [(0, 1)], rhs := 0, rowsinds := [7], slacksign := [1],
    rowweights := [1], rank := 0, islocal := false }

/-- A continuous variable with no finite global or local bound in either
direction and no variable bounds: a free variable. -/
def freeContVar : MVar :=
  { vartype := VARTYPE_CONTINUOUS, glb := -infinityQ, gub := infinityQ,
    llb := -infinityQ, lub := infinityQ, vlbs := [], vubs := [], lpsol := 0 }

/-- A one-variable problem whose only (continuous) variable is free. -/
def probFree : Prob := { vars := [freeContVar], ncontvars := 1, rows := [] }

/-- An aggregation row over `probFree` containing the free variable with a
nonzero coefficient. -/
def aggrFree : AggrRow :=
  { entries := [(0, 1)], rhs := 1 / 2, rowsinds := [], slacksign := [],
    rowweights := [], rank := 0, islocal := false }

/-- An integral variable with no finite global or local bound in either
direction and no variable bounds, at LP solution value 5. -/
def freeIntVar : MVar :=
  { vartype := 0, glb := -infinityQ, gub := infinityQ, llb := -infinityQ,
    lub := infinityQ, vlbs := [], vubs := [], lpsol := 5 }

/-- A continuous variable with global and local lower bound `0`, no upper
bound, and one variable lower bound `x1 ≥ 1 * x0 + 0` referencing the
integral variable `0`. -/
def vlbContVar : MVar :=
  { vartype := VARTYPE_CONTINUOUS, glb := 0, gub := infinityQ, llb := 0,
    lub := infinityQ, vlbs := [(0, 1, 0)], vubs := [], lpsol := 0 }

/-- A two-variable problem: the free integral variable `0` and the
continuous variable `1` whose variable lower bound references variable
`0`. -/
def probCancel : Prob :=
  { vars := [freeIntVar, vlbContVar], ncontvars := 1, rows := [] }

/-- An aggregation row over `probCancel` holding both variables with
opposite unit coefficients, so that the variable-bound substitution
performed for variable `1` cancels the coefficient of the free variable `0`
exactly. -/
def aggrCancel : AggrRow :=
  { entries := [(0, -1), (1, 1)], rhs := 1 / 2, rowsinds := [],
    slacksign := [], rowweights := [], rank := 0, islocal := false }

/-! ## Theorems -/

/-- Claim C2: in the MIR rounding step with `f0 = rhs - floor(rhs)`, every
(complemented) integer variable with transformed coefficient `a'` receives
rounded coefficient `floor(a')` if `f = a' - floor(a') ≤ f0` and
`floor(a') + (f - f0)/(1 - f0)` otherwise, and every continuous variable
receives `0` if `a' ≥ 0` and `a'/(1 - f0)` if `a' < 0`: the coefficient
computations of `cutsRoundMIR` (which stores `varsign` times the rounded
coefficient of the complemented variable, `a' = varsign * a`) agree with the
spec formulas. -/
theorem mir_rounding_formula (varsign : ℤ) (coef f0 : ℚ)
    (h : varsign = 1 ∨ varsign = -1) :
    (varsign : ℚ) * cutsRoundMIRIntCoef varsign coef f0 =
      mirRoundIntSpec ((varsign : ℚ) * coef) f0 ∧
    (varsign : ℚ) * cutsRoundMIRContCoef varsign coef f0 =
      mirRoundContSpec ((varsign : ℚ) * coef) f0 := by
  rcases h with h | h <;> subst h <;> constructor <;>
    simp only [cutsRoundMIRIntCoef, mirRoundIntSpec, cutsRoundMIRContCoef,
      mirRoundContSpec] <;>
    split_ifs <;> push_cast <;> ring_nf

/-- Witness for C2 at `varsign = 1`, `a = 3/2`, `f0 = 1/3`. -/
theorem mir_rounding_formula_witness :
    ((1 : ℤ) = 1 ∨ (1 : ℤ) = -1) ∧
    (((1 : ℤ) : ℚ) * cutsRoundMIRIntCoef 1 (3 / 2) (1 / 3) =
        mirRoundIntSpec (((1 : ℤ) : ℚ) * (3 / 2)) (1 / 3) ∧
      ((1 : ℤ) : ℚ) * cutsRoundMIRContCoef 1 (3 / 2) (1 / 3) =
        mirRoundContSpec (((1 : ℤ) : ℚ) * (3 / 2)) (1 / 3)) :=
  ⟨Or.inl rfl, mir_rounding_formula 1 (3 / 2) (1 / 3) (Or.inl rfl)⟩

/-- Claim C3: in the Strong-CG pipeline `k = ceil(1/f0) - 1` and `k ≥ 1` for
every `f0` in `(0,1)`; the rounded coefficient of an integer variable with
transformed coefficient `a'` is `floor(a')` when `f ≤ f0`, else
`floor(a') + p/(k+1)` with `p = ceil(k (f - f0)/(1 - f0))`, and in the
latter case `p` lies in `[0, k]`. -/
theorem strongcg_k_and_rounding (varsign : ℤ) (coef f0 : ℚ)
    (h0 : 0 < f0) (h1 : f0 < 1) (hs : varsign = 1 ∨ varsign = -1) :
    strongCGk f0 = ⌈1 / f0⌉ - 1 ∧
    1 ≤ strongCGk f0 ∧
    (varsign : ℚ) * cutsRoundStrongCGIntCoef varsign coef f0 (strongCGk f0) =
      strongCGRoundIntSpec ((varsign : ℚ) * coef) f0 (strongCGk f0) ∧
    (f0 < fracQ ((varsign : ℚ) * coef) →
      0 ≤ strongCGp (fracQ ((varsign : ℚ) * coef)) f0 (strongCGk f0) ∧
        strongCGp (fracQ ((varsign : ℚ) * coef)) f0 (strongCGk f0) ≤
          strongCGk f0) := by
  have hk : 1 ≤ strongCGk f0 := by
    have h2 : (1 : ℚ) < 1 / f0 := one_lt_one_div h0 h1
    have h3 : (1 : ℤ) < ⌈1 / f0⌉ := Int.lt_ceil.mpr (by exact_mod_cast h2)
    unfold strongCGk
    omega
  refine ⟨rfl, hk, ?_, ?_⟩
  · have hdiv : ∀ x : ℚ, x * (1 / (1 - f0)) = x / (1 - f0) := fun x => by
      rw [mul_one_div]
    rcases hs with h | h <;> subst h <;>
      simp only [cutsRoundStrongCGIntCoef, strongCGRoundIntSpec, strongCGp,
        hdiv] <;>
      split_ifs <;> push_cast <;> ring_nf
  · intro hf
    set a := (varsign : ℚ) * coef with ha
    have hfr1 : fracQ a < 1 := by
      unfold fracQ
      linarith [Int.lt_floor_add_one a]
    have hkq : (1 : ℚ) ≤ ((strongCGk f0 : ℤ) : ℚ) := by exact_mod_cast hk
    constructor
    · apply Int.ceil_nonneg
      have hpos : (0 : ℚ) <
          ((strongCGk f0 : ℤ) : ℚ) * (fracQ a - f0) * (1 / (1 - f0)) := by
        apply mul_pos
        · apply mul_pos (by linarith) (by linarith)
        · exact one_div_pos.mpr (by linarith)
      exact le_of_lt hpos
    · apply Int.ceil_le.mpr
      rw [mul_one_div, div_le_iff₀ (by linarith : (0 : ℚ) < 1 - f0)]
      have hle : fracQ a - f0 ≤ 1 - f0 := by linarith
      nlinarith

/-- Witness for C3 at `varsign = 1`, `a = 9/10`, `f0 = 1/4`. -/
theorem strongcg_k_and_rounding_witness :
    (0 < (1 / 4 : ℚ) ∧ (1 / 4 : ℚ) < 1 ∧ ((1 : ℤ) = 1 ∨ (1 : ℤ) = -1)) ∧
    (strongCGk (1 / 4) = ⌈1 / (1 / 4 : ℚ)⌉ - 1 ∧
      1 ≤ strongCGk (1 / 4) ∧
      ((1 : ℤ) : ℚ) *
          cutsRoundStrongCGIntCoef 1 (9 / 10) (1 / 4) (strongCGk (1 / 4)) =
        strongCGRoundIntSpec (((1 : ℤ) : ℚ) * (9 / 10)) (1 / 4)
          (strongCGk (1 / 4)) ∧
      ((1 / 4 : ℚ) < fracQ (((1 : ℤ) : ℚ) * (9 / 10)) →
        0 ≤ strongCGp (fracQ (((1 : ℤ) : ℚ) * (9 / 10))) (1 / 4)
            (strongCGk (1 / 4)) ∧
          strongCGp (fracQ (((1 : ℤ) : ℚ) * (9 / 10))) (1 / 4)
              (strongCGk (1 / 4)) ≤
            strongCGk (1 / 4))) :=
  ⟨⟨by norm_num, by norm_num, Or.inl rfl⟩,
    strongcg_k_and_rounding 1 (9 / 10) (1 / 4) (by norm_num) (by norm_num)
      (Or.inl rfl)⟩

/-- Claim C7 counterexample: the heuristic does not try the ×2, ×4, ×8
scalings of the best delta — at `bestdelta = 8` the additional trials are
`[4, 2, 1]` (the delta divided by 2, 4, 8), not `[16, 32, 64]`. -/
theorem cmir_extra_deltas_counterexample :
    extraDeltaTrials 8 = [4, 2, 1] ∧ ¬ extraDeltaTrials 8 = [16, 32, 64] := by
  constructor
  · simp only [extraDeltaTrials]
    norm_num
  · simp only [extraDeltaTrials]
    intro h
    have := List.head_eq_of_cons_eq h
    norm_num at this

instance : IsTotal (ℚ × ℕ) (fun a b => b.1 ≤ a.1) :=
  ⟨fun a b => (le_total a.1 b.1).symm⟩

instance : IsTrans (ℚ × ℕ) (fun a b => b.1 ≤ a.1) :=
  ⟨fun _ _ _ hab hbc => le_trans hbc hab⟩

/-- Claim C7 as amended: after the best delta among the candidate set is
determined, the heuristic additionally tries that delta divided by 2, 4
and 8 (equivalently, multiplies the applied row scale `1/delta` by 2, 4
and 8), and then, for fractional integer variables in decreasing order of
bound distance, keeps a complementation flip exactly when it strictly
improves the rounded efficacy (the flip is reverted when the best efficacy
did not change, and `tryDelta` raises it only for a strictly larger
candidate). -/
theorem cmir_extra_deltas_and_flips (d best cand : ℚ) (bd : List (ℚ × ℕ)) :
    extraDeltaTrials d = [d / 2, d / 4, d / 8] ∧
    (flipKept best cand = true ↔ cand > best) ∧
    List.Sorted (fun a b => b.1 ≤ a.1) (sortDownRealInt bd) := by
  refine ⟨rfl, ?_, List.sorted_insertionSort _ bd⟩
  simp only [flipKept, tryDeltaBestEfficacy, decide_eq_true_eq]
  split_ifs with h
  · simp only [iff_true_intro h, iff_true]
    exact fun he => absurd he (ne_of_gt h)
  · simp [h]

/-- Claim C10: `SCIPaggrRowCopy` duplicates the copy's `rowsinds` from the
source's `vals` array (cuts.c:295) instead of `source->rowsinds`, so the
copy is not observationally equal to its source: for any byte
reinterpretation, the two concrete sources `aggrRowA` and `aggrRowB` (equal
coefficients, different source-row indices) get identical `rowsinds` in
their copies, so at least one copy differs from its source. -/
theorem aggrrow_copy_loses_rowsinds (reinterp : List ℚ → ℕ → List ℤ) :
    ¬ ((SCIPaggrRowCopy reinterp aggrRowA).rowsinds = aggrRowA.rowsinds ∧
      (SCIPaggrRowCopy reinterp aggrRowB).rowsinds = aggrRowB.rowsinds) := by
  rintro ⟨h1, h2⟩
  have hsame : (SCIPaggrRowCopy reinterp aggrRowA).rowsinds =
      (SCIPaggrRowCopy reinterp aggrRowB).rowsinds := rfl
  rw [h1, h2] at hsame
  simp [aggrRowA, aggrRowB] at hsame

/-- In a key-nodup association list, searching for the key of a member finds
that member. -/
theorem find_key_self :
    ∀ {cols : List (ℕ × ℚ)}, (keysOf cols).Nodup → ∀ {e : ℕ × ℚ}, e ∈ cols →
      cols.find? (fun re => re.1 == e.1) = some e := by
  intro cols
  induction cols with
  | nil => intro _ e he; cases he
  | cons c rest ih =>
    intro hnd e he
    simp only [keysOf, List.map_cons, List.nodup_cons] at hnd
    rcases List.mem_cons.mp he with rfl | hmem
    · simp [List.find?_cons]
    · have hne : ¬ c.1 = e.1 := by
        intro hkey
        exact hnd.1 (hkey ▸ List.mem_map.mpr ⟨e, hmem, rfl⟩)
      rw [List.find?_cons]
      have hbeq : (c.1 == e.1) = false := beq_false_of_ne hne
      rw [hbeq]
      exact ih hnd.2 hmem

/-- A sparse vector all of whose stored values are zero assigns coefficient
zero to every variable. -/
theorem coefOf_of_allzero {entries : List (ℕ × ℚ)}
    (h : ∀ e ∈ entries, e.2 = 0) (v : ℕ) : coefOf entries v = 0 := by
  unfold coefOf
  apply List.sum_eq_zero
  intro x hx
  rcases List.mem_map.mp hx with ⟨e, he, rfl⟩
  exact h e (List.mem_filter.mp he).1

/-- Adding `scale` times a key-nodup row to the empty vector and then
`-scale` times the same row yields a vector whose stored values are all
zero. -/
theorem varVec_add_sub_allzero (cols : List (ℕ × ℚ)) (s : ℚ)
    (hnd : (keysOf cols).Nodup) :
    ∀ e ∈ varVecAddScaledRowCoefs
      (varVecAddScaledRowCoefs [] cols s) cols (-s), e.2 = 0 := by
  intro e he
  have hvec : varVecAddScaledRowCoefs [] cols s =
      cols.map (fun e => (e.1, e.2 * s)) := by
    simp [varVecAddScaledRowCoefs]
  rw [hvec] at he
  by_cases hnil : cols = []
  · subst hnil
    simp [varVecAddScaledRowCoefs] at he
  · unfold varVecAddScaledRowCoefs at he
    rw [if_neg (by simpa [List.isEmpty_iff] using hnil)] at he
    have hfilter : (cols.filter (fun re =>
        !((cols.map (fun e => (e.1, e.2 * s))).any
          (fun e => e.1 == re.1)))) = [] := by
      apply List.filter_eq_nil_iff.mpr
      intro a ha
      simp only [Bool.not_eq_true', Bool.not_eq_false]
      apply List.any_eq_true.mpr
      exact ⟨(a.1, a.2 * s), List.mem_map.mpr ⟨a, ha, rfl⟩, by simp⟩
    rw [hfilter] at he
    simp only [List.map_nil, List.append_nil, List.map_map] at he
    rcases List.mem_map.mp he with ⟨a, ha, hae⟩
    have hfind : cols.find? (fun re => re.1 == a.1) = some a :=
      find_key_self hnd ha
    simp only [Function.comp_apply, hfind] at hae
    rw [← hae]
    show a.2 * s + -s * a.2 = 0
    ring

/-- Claim C5 counterexample: on the inequality row `rowOne`
(`lhs = 0 ≠ rhs = 1`), `addRow(r, 1)` with automatic side selection uses the
rhs while `addRow(r, -1)` uses the lhs, so the resulting rhs is
`1*(1) + (-1)*(0) = 1 ≠ 0`, refuting the claim that the rhs is always 0. -/
theorem aggrrow_addrow_rhs_not_zero :
    ¬ (SCIPaggrRowAddRow (SCIPaggrRowAddRow SCIPaggrRowCreate rowOne 1 0)
        rowOne (-1) 0).rhs = 0 := by
  norm_num [SCIPaggrRowAddRow, SCIPaggrRowCreate, addRowUselhs, addRowSideval,
    rowOne, isInf, infinityQ]

/-- Claim C5 as amended: `addRow(r, s)` followed by `addRow(r, -s)` with
automatic side selection on an otherwise-empty aggregation row yields a
coefficient of zero for every variable, and a rhs equal to
`s * (sideval₁ - sideval₂)` where `sideval₁`/`sideval₂` are the (pre-rounded)
side values selected by the two calls — which is `0` whenever both calls
select the same side (in particular for an equality row, or when only one
side is finite), but not in general (an inequality row with two finite
sides and `s > 0` gives `s * (rhs - lhs) > 0`).  Rows have pairwise-distinct
column indices (`hnd`). -/
theorem aggrrow_addrow_cancellation (row : LPRow) (s : ℚ) (v : ℕ)
    (hnd : (keysOf row.cols).Nodup) :
    coefOf (SCIPaggrRowAddRow (SCIPaggrRowAddRow SCIPaggrRowCreate row s 0)
      row (-s) 0).entries v = 0 ∧
    (SCIPaggrRowAddRow (SCIPaggrRowAddRow SCIPaggrRowCreate row s 0)
        row (-s) 0).rhs =
      s * (addRowSideval row (addRowUselhs row s 0) -
        addRowSideval row (addRowUselhs row (-s) 0)) ∧
    (addRowUselhs row s 0 = addRowUselhs row (-s) 0 →
      (SCIPaggrRowAddRow (SCIPaggrRowAddRow SCIPaggrRowCreate row s 0)
        row (-s) 0).rhs = 0) := by
  refine ⟨?_, ?_, ?_⟩
  · exact coefOf_of_allzero (varVec_add_sub_allzero row.cols s hnd) v
  · simp only [SCIPaggrRowAddRow, SCIPaggrRowCreate]
    ring
  · intro hsame
    simp only [SCIPaggrRowAddRow, SCIPaggrRowCreate, hsame]
    ring

/-- Witness for the amended C5 at `rowOne`, `s = 1`, `v = 0`. -/
theorem aggrrow_addrow_cancellation_witness :
    (keysOf rowOne.cols).Nodup ∧
    (coefOf (SCIPaggrRowAddRow (SCIPaggrRowAddRow SCIPaggrRowCreate rowOne
        1 0) rowOne (-1) 0).entries 0 = 0 ∧
      (SCIPaggrRowAddRow (SCIPaggrRowAddRow SCIPaggrRowCreate rowOne 1 0)
          rowOne (-1) 0).rhs =
        1 * (addRowSideval rowOne (addRowUselhs rowOne 1 0) -
          addRowSideval rowOne (addRowUselhs rowOne (-1) 0)) ∧
      (addRowUselhs rowOne 1 0 = addRowUselhs rowOne (-1) 0 →
        (SCIPaggrRowAddRow (SCIPaggrRowAddRow SCIPaggrRowCreate rowOne 1 0)
          rowOne (-1) 0).rhs = 0)) :=
  ⟨by decide, aggrrow_addrow_cancellation rowOne 1 0 (by decide)⟩

/-- Claim C6 counterexample: with `maxaggrlen = 1`, summing the single
two-nonzero row `rowTwo` aborts with `valid = false`, yet the aggregation
row is left holding that row's coefficients — the fill is aborted
half-filled, not re-cleared. -/
theorem sumrows_leaves_partial_content :
    (SCIPaggrRowSumRows [rowTwo] [1] none 1 0 false false 0 1
      SCIPaggrRowCreate).2 = false ∧
    ¬ (SCIPaggrRowSumRows [rowTwo] [1] none 1 0 false false 0 1
      SCIPaggrRowCreate).1.entries = [] := by
  constructor
  · norm_num [SCIPaggrRowSumRows, sumRowsLoop, addOneRow, addOneRowUselhs,
      addOneRowCoefs, updateEntry, addRowSideval, SCIPaggrRowClear,
      SCIPaggrRowCreate, rowTwo, isInf, infinityQ, BASESTAT_LOWER,
      BASESTAT_UPPER]
  · intro h
    norm_num [SCIPaggrRowSumRows, sumRowsLoop, addOneRow, addOneRowUselhs,
      addOneRowCoefs, updateEntry, addRowSideval, SCIPaggrRowClear,
      SCIPaggrRowCreate, rowTwo, isInf, infinityQ, BASESTAT_LOWER,
      BASESTAT_UPPER] at h
    exact List.cons_ne_nil _ _ h

/-- Claim C6 as amended: `SCIPaggrRowSumRows` always clears the aggregation
row first — its result does not depend in any way on the row's prior
content — but when it reports `valid = false` because the nonzero count
exceeded `maxaggrlen`, the row may be left holding the partial sum of the
rows processed before the abort (the caller must treat the row as invalid;
it is not guaranteed empty). -/
theorem sumrows_clears_prior_content (rows : List LPRow) (weights : List ℚ)
    (rowinds : Option (List ℕ)) (maxweightrange minallowedweight : ℚ)
    (sidetypebasis allowlocal : Bool) (negslack : ℤ) (maxaggrlen : ℕ)
    (ar1 ar2 : AggrRow) :
    SCIPaggrRowSumRows rows weights rowinds maxweightrange minallowedweight
      sidetypebasis allowlocal negslack maxaggrlen ar1 =
    SCIPaggrRowSumRows rows weights rowinds maxweightrange minallowedweight
      sidetypebasis allowlocal negslack maxaggrlen ar2 := rfl

/-- A key present in an updated association list was present before or is
the updated key. -/
theorem mem_keysOf_updateEntry :
    ∀ {l : List (ℕ × ℚ)} {v : ℕ} {dv : ℚ} {x : ℕ},
      x ∈ keysOf (updateEntry l v dv) → x ∈ keysOf l ∨ x = v := by
  intro l
  induction l with
  | nil =>
    intro v dv x hx
    simp [updateEntry, keysOf] at hx
    exact Or.inr hx
  | cons e rest ih =>
    intro v dv x hx
    rw [updateEntry] at hx
    by_cases hev : e.1 = v
    · rw [if_pos hev] at hx
      simp only [keysOf, List.map_cons, List.mem_cons] at hx ⊢
      exact Or.inl hx
    · rw [if_neg hev] at hx
      simp only [keysOf, List.map_cons, List.mem_cons] at hx ⊢
      rcases hx with hx | hx
      · exact Or.inl (Or.inl hx)
      · rcases ih hx with h | h
        · exact Or.inl (Or.inr h)
        · exact Or.inr h

/-- `updateEntry` preserves key-nodup: it merges into the existing entry or
appends a fresh key. -/
theorem updateEntry_nodup :
    ∀ {l : List (ℕ × ℚ)}, (keysOf l).Nodup → ∀ (v : ℕ) (dv : ℚ),
      (keysOf (updateEntry l v dv)).Nodup := by
  intro l
  induction l with
  | nil =>
    intro _ v dv
    simp [updateEntry, keysOf]
  | cons e rest ih =>
    intro hnd v dv
    simp only [keysOf, List.map_cons, List.nodup_cons] at hnd
    rw [updateEntry]
    by_cases hev : e.1 = v
    · rw [if_pos hev]
      simp only [keysOf, List.map_cons, List.nodup_cons]
      exact ⟨hnd.1, hnd.2⟩
    · rw [if_neg hev]
      simp only [keysOf, List.map_cons, List.nodup_cons]
      refine ⟨?_, ih hnd.2 v dv⟩
      intro hmem
      rcases mem_keysOf_updateEntry hmem with h | h
      · exact hnd.1 h
      · exact hev h

/-- The coefficient-merge loop of `addOneRow` preserves key-nodup. -/
theorem addOneRowCoefs_nodup :
    ∀ (rowcols : List (ℕ × ℚ)) {entries : List (ℕ × ℚ)},
      (keysOf entries).Nodup → ∀ (w : ℚ),
      (keysOf (addOneRowCoefs entries rowcols w)).Nodup := by
  intro rowcols
  induction rowcols with
  | nil => intro entries h w; exact h
  | cons rc rest ih =>
    intro entries h w
    have : addOneRowCoefs entries (rc :: rest) w =
        addOneRowCoefs (updateEntry entries rc.1 (w * rc.2)) rest w := rfl
    rw [this]
    exact ih (updateEntry_nodup h rc.1 (w * rc.2)) w

/-- The keys of a sparse vector are unchanged by a map that preserves first
components. -/
theorem keysOf_map_eq {l : List (ℕ × ℚ)} {g : ℕ × ℚ → ℕ × ℚ}
    (hg : ∀ e ∈ l, (g e).1 = e.1) : keysOf (l.map g) = keysOf l := by
  unfold keysOf
  rw [List.map_map]
  exact List.map_congr_left (fun e he => hg e he)

/-- Keys distribute over append. -/
theorem keysOf_append (l1 l2 : List (ℕ × ℚ)) :
    keysOf (l1 ++ l2) = keysOf l1 ++ keysOf l2 := by
  unfold keysOf
  exact List.map_append _ _ _

/-- `varVecAddScaledRowCoefs` preserves key-nodup (claim C9's merge
behavior): for a variable already present the incoming coefficient is merged
into the existing entry, and only genuinely new variables are appended. -/
theorem varVec_nodup (vec rowcols : List (ℕ × ℚ)) (scale : ℚ)
    (h1 : (keysOf vec).Nodup) (h2 : (keysOf rowcols).Nodup) :
    (keysOf (varVecAddScaledRowCoefs vec rowcols scale)).Nodup := by
  unfold varVecAddScaledRowCoefs
  split_ifs with hemp
  · have : keysOf (rowcols.map (fun e => (e.1, e.2 * scale))) =
        keysOf rowcols := keysOf_map_eq (fun e _ => rfl)
    rw [this]
    exact h2
  · have hm1 : keysOf (vec.map (fun e =>
        match rowcols.find? (fun re => re.1 == e.1) with
        | some re => (e.1, e.2 + scale * re.2)
        | none => e)) = keysOf vec :=
      keysOf_map_eq (fun e _ => by
        cases hf : rowcols.find? (fun re => re.1 == e.1) <;> simp [hf])
    have hm2 : keysOf ((rowcols.filter (fun re =>
        !(vec.any (fun e => e.1 == re.1)))).map
        (fun re => (re.1, re.2 * scale))) =
        keysOf (rowcols.filter (fun re =>
          !(vec.any (fun e => e.1 == re.1)))) :=
      keysOf_map_eq (fun e _ => rfl)
    rw [keysOf_append, hm1, hm2, List.nodup_append]
    refine ⟨h1, ?_, ?_⟩
    · exact List.Nodup.sublist
        (List.Sublist.map _ (List.filter_sublist _)) h2
    · intro x hx hx2
      rcases List.mem_map.mp hx2 with ⟨re, hre, hree⟩
      have hpred := (List.mem_filter.mp hre).2
      simp only [Bool.not_eq_true', List.any_eq_false] at hpred
      rcases List.mem_map.mp hx with ⟨ev, hev, hxev⟩
      have hf := hpred ev hev
      apply hf
      rw [beq_iff_eq, hxev, hree]

/-- Claim C9: every coefficient-adding operation preserves the invariant
that no variable problem index occurs at two different positions of the
sparse vector — an incoming coefficient for a variable already present is
merged additively, not appended: both `varVecAddScaledRowCoefs` (used by
`SCIPaggrRowAddRow` and the substitution steps) and `addOneRow` (inside
`SCIPaggrRowSumRows`) map key-nodup states to key-nodup states (rows have
pairwise-distinct column indices, `h2`). -/
theorem no_duplicate_indices_invariant (vec rowcols : List (ℕ × ℚ))
    (scale : ℚ) (st : SumState) (row : LPRow)
    (weight maxweightrange minallowedweight : ℚ)
    (sidetypebasis allowlocal : Bool) (negslack : ℤ) (maxaggrlen : ℕ)
    (h1 : (keysOf vec).Nodup) (h2 : (keysOf rowcols).Nodup)
    (h3 : (keysOf st.ar.entries).Nodup) :
    (keysOf (varVecAddScaledRowCoefs vec rowcols scale)).Nodup ∧
    (keysOf (addOneRow st row weight maxweightrange minallowedweight
      sidetypebasis allowlocal negslack maxaggrlen).1.ar.entries).Nodup := by
  refine ⟨varVec_nodup vec rowcols scale h1 h2, ?_⟩
  simp only [addOneRow]
  split_ifs <;>
    first
    | exact h3
    | exact addOneRowCoefs_nodup row.cols h3 weight

/-- Witness for C9 at concrete small inputs. -/
theorem no_duplicate_indices_invariant_witness :
    ((keysOf [(0, (1 : ℚ))]).Nodup ∧ (keysOf [(0, (2 : ℚ)), (1, 3)]).Nodup ∧
      (keysOf (⟨aggrRowA, 1, 1⟩ : SumState).ar.entries).Nodup) ∧
    ((keysOf (varVecAddScaledRowCoefs [(0, (1 : ℚ))] [(0, (2 : ℚ)), (1, 3)]
      2)).Nodup ∧
    (keysOf (addOneRow (⟨aggrRowA, 1, 1⟩ : SumState) rowTwo 1 1 0 false false
      2 5).1.ar.entries).Nodup) :=
  ⟨⟨by decide, by decide, by decide⟩,
    no_duplicate_indices_invariant [(0, 1)] [(0, 2), (1, 3)] 2
      ⟨aggrRowA, 1, 1⟩ rowTwo 1 1 0 false false 2 5 (by decide) (by decide)
      (by decide)⟩

/-- Summing `if p j then f j else 0` equals summing `f` over the filtered
list. -/
theorem sum_if_filter (l : List ℕ) (p : ℕ → Prop) [DecidablePred p]
    (f : ℕ → ℚ) :
    (l.map (fun j => if p j then f j else 0)).sum =
      ((l.filter (fun j => decide (p j))).map f).sum := by
  induction l with
  | nil => rfl
  | cons a t ih =>
    by_cases hp : p a <;>
      simp [List.filter_cons, hp, ih]

/-- A sum over a list splits into the sums over the `p` and `¬p` parts. -/
theorem sum_filter_split (l : List ℕ) (p : ℕ → Prop) [DecidablePred p]
    (f : ℕ → ℚ) :
    ((l.filter (fun j => decide (p j))).map f).sum +
      ((l.filter (fun j => decide (¬ p j))).map f).sum = (l.map f).sum := by
  induction l with
  | nil => simp
  | cons a t ih =>
    by_cases hp : p a
    · rw [List.filter_cons_of_pos (by simp [hp]),
        List.filter_cons_of_neg (by simp [hp])]
      simp only [List.map_cons, List.sum_cons]
      rw [← ih]
      ring
    · rw [List.filter_cons_of_neg (by simp [hp]),
        List.filter_cons_of_pos (by simp [hp])]
      simp only [List.map_cons, List.sum_cons]
      rw [← ih]
      ring

/-- Invariants of the greedy knapsack fold: the running weight is the weight
of the selected items, it stays strictly below the capacity, and the
selected/unselected lists partition the initial lists plus the processed
items. -/
theorem approx_fold_spec (weights : ℕ → ℚ) (cap : ℚ) :
    ∀ (order : List ℕ) (s n : List ℕ) (w : ℚ),
      (s.map weights).sum = w → w < cap →
      (((order.foldl (approxStep weights cap) ((s, n), w)).1.1.map
          weights).sum = (order.foldl (approxStep weights cap) ((s, n), w)).2 ∧
        (order.foldl (approxStep weights cap) ((s, n), w)).2 < cap ∧
        ((order.foldl (approxStep weights cap) ((s, n), w)).1.1 ++
          (order.foldl (approxStep weights cap) ((s, n), w)).1.2).Perm
          ((s ++ n) ++ order)) := by
  intro order
  induction order with
  | nil =>
    intro s n w hw hlt
    simp only [List.foldl_nil]
    exact ⟨hw, hlt, by simp⟩
  | cons j rest ih =>
    intro s n w hw hlt
    rw [List.foldl_cons]
    unfold approxStep
    by_cases hfit : w + weights j < cap
    · rw [if_pos hfit]
      have h1 : ((s ++ [j]).map weights).sum = w + weights j := by
        rw [List.map_append, List.sum_append]
        simp [hw]
      obtain ⟨a, b, c⟩ := ih (s ++ [j]) n (w + weights j) h1 hfit
      refine ⟨a, b, c.trans ?_⟩
      apply List.perm_iff_count.mpr
      intro x
      by_cases hxj : x = j <;>
        simp [List.count_append, List.count_cons, hxj] <;> ring
    · rw [if_neg hfit]
      obtain ⟨a, b, c⟩ := ih s (n ++ [j]) w hw hlt
      refine ⟨a, b, c.trans ?_⟩
      apply List.perm_iff_count.mpr
      intro x
      by_cases hxj : x = j <;>
        simp [List.count_append, List.count_cons, hxj] <;> ring

/-- The approximate knapsack solver selects items of total weight strictly
below the capacity, and its two output lists partition the input items. -/
theorem approx_spec (weights : ℕ → ℚ) (cap : ℚ) (hcap : 0 < cap)
    (order : List ℕ) :
    ((solveKnapsackApproximatelyLT weights cap order).1.map weights).sum <
        cap ∧
      ((solveKnapsackApproximatelyLT weights cap order).1 ++
        (solveKnapsackApproximatelyLT weights cap order).2).Perm order := by
  unfold solveKnapsackApproximatelyLT
  obtain ⟨a, b, c⟩ := approx_fold_spec weights cap order [] [] 0 (by simp) hcap
  exact ⟨a ▸ b, by simpa using c⟩

/-- The selected-item fold of `buildFlowCover` subtracts the capacities of
the selected `N2` items from the running weight. -/
theorem bfcSol_weight (snf : SNF) :
    ∀ (sol : List ℕ) (st : List ℤ × ℚ),
      (sol.foldl (bfcSolStep snf) st).2 =
        st.2 - ((sol.filter (fun j => decide (¬ snf.coef j = 1))).map
          snf.vub).sum := by
  intro sol
  induction sol with
  | nil => intro st; simp
  | cons j rest ih =>
    intro st
    rw [List.foldl_cons, ih]
    unfold bfcSolStep
    by_cases hc : snf.coef j = 1
    · rw [if_pos hc]
      simp [List.filter_cons, hc]
    · rw [if_neg hc]
      simp [List.filter_cons, hc]
      ring

/-- The unselected-item fold of `buildFlowCover` adds the capacities of the
unselected `N1` items to the running weight. -/
theorem bfcNonsol_weight (snf : SNF) :
    ∀ (nonsol : List ℕ) (st : List ℤ × ℚ),
      (nonsol.foldl (bfcNonsolStep snf) st).2 =
        st.2 + ((nonsol.filter (fun j => decide (snf.coef j = 1))).map
          snf.vub).sum := by
  intro nonsol
  induction nonsol with
  | nil => intro st; simp
  | cons j rest ih =>
    intro st
    rw [List.foldl_cons, ih]
    unfold bfcNonsolStep
    by_cases hc : snf.coef j = 1
    · rw [if_pos hc]
      simp [List.filter_cons, hc]
      ring
    · rw [if_neg hc]
      simp [List.filter_cons, hc]

/-- Closed form of the `lambda` produced by `buildFlowCover`. -/
theorem buildFlowCover_lambda (snf : SNF) (sol nonsol : List ℕ)
    (statuses : List ℤ) (fw : ℚ) :
    (buildFlowCover snf sol nonsol statuses fw).2.2 =
      fw - ((sol.filter (fun j => decide (¬ snf.coef j = 1))).map
          snf.vub).sum
        + ((nonsol.filter (fun j => decide (snf.coef j = 1))).map
          snf.vub).sum - snf.transrhs := by
  unfold buildFlowCover
  simp only
  rw [bfcNonsol_weight, bfcSol_weight]

/-- A cover built from the approximate knapsack solution over the after-fix
weight always has strictly positive `lambda`: it equals the knapsack
capacity minus the selected weight. -/
theorem approx_build_lambda_pos (snf : SNF) (order : List ℕ)
    (statuses : List ℤ) (horder : order.Perm (flowCoverItems snf))
    (hcap : 0 < flowCoverCapacity snf) :
    0 < (buildFlowCover snf
      (solveKnapsackApproximatelyLT snf.vub (flowCoverCapacity snf) order).1
      (solveKnapsackApproximatelyLT snf.vub (flowCoverCapacity snf) order).2
      statuses (fixWeight snf)).2.2 := by
  obtain ⟨hsum, hperm⟩ := approx_spec snf.vub (flowCoverCapacity snf) hcap
    order
  set S := (solveKnapsackApproximatelyLT snf.vub (flowCoverCapacity snf)
    order).1 with hSdef
  set N := (solveKnapsackApproximatelyLT snf.vub (flowCoverCapacity snf)
    order).2 with hNdef
  rw [buildFlowCover_lambda]
  have hperm2 : (S ++ N).Perm (flowCoverItems snf) := hperm.trans horder
  have hpf : ((S ++ N).filter (fun j => decide (snf.coef j = 1))).Perm
      ((flowCoverItems snf).filter (fun j => decide (snf.coef j = 1))) :=
    hperm2.filter _
  have hsum1 : ((S.filter (fun j => decide (snf.coef j = 1))).map
        snf.vub).sum +
      ((N.filter (fun j => decide (snf.coef j = 1))).map snf.vub).sum =
      (((flowCoverItems snf).filter (fun j => decide (snf.coef j = 1))).map
        snf.vub).sum := by
    have h2 := (hpf.map snf.vub).sum_eq
    rw [List.filter_append, List.map_append, List.sum_append] at h2
    exact h2
  have hn1 : n1itemsWeight snf = (((flowCoverItems snf).filter
      (fun j => decide (snf.coef j = 1))).map snf.vub).sum := by
    unfold n1itemsWeight
    exact sum_if_filter _ _ _
  have hsplit : ((S.filter (fun j => decide (snf.coef j = 1))).map
        snf.vub).sum +
      ((S.filter (fun j => decide (¬ snf.coef j = 1))).map snf.vub).sum =
      (S.map snf.vub).sum := sum_filter_split S _ snf.vub
  have hcapdef : flowCoverCapacity snf =
      -snf.transrhs + fixWeight snf + n1itemsWeight snf := rfl
  linarith

/-- Claim C4: `getFlowCover` reports `found = true` only with a strictly
positive cover excess `lambda`, and whenever the exact
dynamic-programming solve yields a cover with `lambda ≤ 0`, the cover is
recomputed with the approximate greedy solver (over the after-fixing
weight) before reporting.  `horder` states that the external selection
routine hands the approximate solver a permutation of the unfixed items;
the scalar finder and exact solver are arbitrary. -/
theorem getflowcover_lambda_positive_and_retry (snf : SNF)
    (cis : List ℚ → Option ℚ)
    (se : List ℤ → List ℚ → ℤ → List ℕ → Option (List ℕ × List ℕ))
    (order : List ℕ) (horder : order.Perm (flowCoverItems snf)) :
    ((getFlowCover snf cis se order).found = true →
      0 < (getFlowCover snf cis se order).lambda) ∧
    (∀ scalar sn,
      flowCoverScaleres snf cis = some scalar →
      flowCoverDpOk snf scalar →
      se ((flowCoverItems snf).map
          (fun j => getIntegralValQ (snf.vub j) scalar))
        (flowCoverProfits snf) (flowCoverCapInt snf scalar)
        (flowCoverItems snf) = some sn →
      ¬ flowCoverCapacity snf / 10 ≤ 0 →
      ¬ (flowCoverItems snf).length = 0 →
      (buildFlowCover snf sn.1 sn.2 (fixedStatuses snf)
        (fixWeight snf)).2.2 ≤ 0 →
      getFlowCover snf cis se order = ⟨true,
        (buildFlowCover snf
          (solveKnapsackApproximatelyLT snf.vub (flowCoverCapacity snf)
            order).1
          (solveKnapsackApproximatelyLT snf.vub (flowCoverCapacity snf)
            order).2
          (buildFlowCover snf sn.1 sn.2 (fixedStatuses snf)
            (fixWeight snf)).1 (fixWeight snf)).1,
        (buildFlowCover snf
          (solveKnapsackApproximatelyLT snf.vub (flowCoverCapacity snf)
            order).1
          (solveKnapsackApproximatelyLT snf.vub (flowCoverCapacity snf)
            order).2
          (buildFlowCover snf sn.1 sn.2 (fixedStatuses snf)
            (fixWeight snf)).1 (fixWeight snf)).2.2⟩) := by
  constructor
  · intro hfound
    by_cases hcap : flowCoverCapacity snf / 10 ≤ 0
    · simp only [getFlowCover, if_pos hcap] at hfound
      exact absurd hfound (by simp)
    · have hcappos : 0 < flowCoverCapacity snf := by
        by_contra hx
        push_neg at hx
        exact hcap (by linarith)
      by_cases hitems : (flowCoverItems snf).length = 0
      · simp only [getFlowCover, if_neg hcap, if_pos hitems]
        show 0 < fixWeight snf - snf.transrhs
        have hil : flowCoverItems snf = [] := List.length_eq_zero.mp hitems
        have hn1 : n1itemsWeight snf = 0 := by simp [n1itemsWeight, hil]
        have hc2 := hcappos
        unfold flowCoverCapacity at hc2
        linarith
      · cases hsc : flowCoverScaleres snf cis with
        | none =>
          simp only [getFlowCover, if_neg hcap, if_neg hitems, hsc]
          have hb1 := approx_build_lambda_pos snf order (fixedStatuses snf)
            horder hcappos
          rw [if_neg (not_le.mpr hb1)]
          exact hb1
        | some scalar =>
          by_cases hdpok : flowCoverDpOk snf scalar
          · cases hdp : se ((flowCoverItems snf).map
                (fun j => getIntegralValQ (snf.vub j) scalar))
                (flowCoverProfits snf) (flowCoverCapInt snf scalar)
                (flowCoverItems snf) with
            | none =>
              simp only [getFlowCover, if_neg hcap, if_neg hitems, hsc,
                if_pos hdpok, hdp]
              have hb1 := approx_build_lambda_pos snf order
                (fixedStatuses snf) horder hcappos
              rw [if_neg (not_le.mpr hb1)]
              exact hb1
            | some sn =>
              simp only [getFlowCover, if_neg hcap, if_neg hitems, hsc,
                if_pos hdpok, hdp]
              by_cases hl : (buildFlowCover snf sn.1 sn.2
                  (fixedStatuses snf) (fixWeight snf)).2.2 ≤ 0
              · rw [if_pos hl]
                exact approx_build_lambda_pos snf order _ horder hcappos
              · rw [if_neg hl]
                exact lt_of_not_le hl
          · simp only [getFlowCover, if_neg hcap, if_neg hitems, hsc,
              if_neg hdpok]
            have hb1 := approx_build_lambda_pos snf order
              (fixedStatuses snf) horder hcappos
            rw [if_neg (not_le.mpr hb1)]
            exact hb1
  · intro scalar sn hsc hdpok hse hcap hitems hneg
    simp only [getFlowCover, if_neg hcap, if_neg hitems, hsc, if_pos hdpok,
      hse, if_pos hneg]

/-- Witness for C4 at a one-item SNF relaxation (capacity 1, fractional
gating binary), with the identity item order, a trivial scalar finder and a
trivial exact solver. -/
theorem getflowcover_lambda_positive_and_retry_witness :
    ((flowCoverItems ⟨[1], [1 / 2], [1], 0⟩).Perm
      (flowCoverItems ⟨[1], [1 / 2], [1], 0⟩)) ∧
    (((getFlowCover ⟨[1], [1 / 2], [1], 0⟩ (fun _ => none)
        (fun _ _ _ _ => none)
        (flowCoverItems ⟨[1], [1 / 2], [1], 0⟩)).found = true →
      0 < (getFlowCover ⟨[1], [1 / 2], [1], 0⟩ (fun _ => none)
        (fun _ _ _ _ => none)
        (flowCoverItems ⟨[1], [1 / 2], [1], 0⟩)).lambda) ∧
    (∀ scalar sn,
      flowCoverScaleres ⟨[1], [1 / 2], [1], 0⟩ (fun _ => none) =
        some scalar →
      flowCoverDpOk ⟨[1], [1 / 2], [1], 0⟩ scalar →
      (fun _ _ _ _ => (none : Option (List ℕ × List ℕ)))
        ((flowCoverItems ⟨[1], [1 / 2], [1], 0⟩).map
          (fun j => getIntegralValQ (SNF.vub ⟨[1], [1 / 2], [1], 0⟩ j)
            scalar))
        (flowCoverProfits ⟨[1], [1 / 2], [1], 0⟩)
        (flowCoverCapInt ⟨[1], [1 / 2], [1], 0⟩ scalar)
        (flowCoverItems ⟨[1], [1 / 2], [1], 0⟩) = some sn →
      ¬ flowCoverCapacity ⟨[1], [1 / 2], [1], 0⟩ / 10 ≤ 0 →
      ¬ (flowCoverItems ⟨[1], [1 / 2], [1], 0⟩).length = 0 →
      (buildFlowCover ⟨[1], [1 / 2], [1], 0⟩ sn.1 sn.2
        (fixedStatuses ⟨[1], [1 / 2], [1], 0⟩)
        (fixWeight ⟨[1], [1 / 2], [1], 0⟩)).2.2 ≤ 0 →
      getFlowCover ⟨[1], [1 / 2], [1], 0⟩ (fun _ => none)
        (fun _ _ _ _ => none)
        (flowCoverItems ⟨[1], [1 / 2], [1], 0⟩) = ⟨true,
        (buildFlowCover ⟨[1], [1 / 2], [1], 0⟩
          (solveKnapsackApproximatelyLT (SNF.vub ⟨[1], [1 / 2], [1], 0⟩)
            (flowCoverCapacity ⟨[1], [1 / 2], [1], 0⟩)
            (flowCoverItems ⟨[1], [1 / 2], [1], 0⟩)).1
          (solveKnapsackApproximatelyLT (SNF.vub ⟨[1], [1 / 2], [1], 0⟩)
            (flowCoverCapacity ⟨[1], [1 / 2], [1], 0⟩)
            (flowCoverItems ⟨[1], [1 / 2], [1], 0⟩)).2
          (buildFlowCover ⟨[1], [1 / 2], [1], 0⟩ sn.1 sn.2
            (fixedStatuses ⟨[1], [1 / 2], [1], 0⟩)
            (fixWeight ⟨[1], [1 / 2], [1], 0⟩)).1
          (fixWeight ⟨[1], [1 / 2], [1], 0⟩)).1,
        (buildFlowCover ⟨[1], [1 / 2], [1], 0⟩
          (solveKnapsackApproximatelyLT (SNF.vub ⟨[1], [1 / 2], [1], 0⟩)
            (flowCoverCapacity ⟨[1], [1 / 2], [1], 0⟩)
            (flowCoverItems ⟨[1], [1 / 2], [1], 0⟩)).1
          (solveKnapsackApproximatelyLT (SNF.vub ⟨[1], [1 / 2], [1], 0⟩)
            (flowCoverCapacity ⟨[1], [1 / 2], [1], 0⟩)
            (flowCoverItems ⟨[1], [1 / 2], [1], 0⟩)).2
          (buildFlowCover ⟨[1], [1 / 2], [1], 0⟩ sn.1 sn.2
            (fixedStatuses ⟨[1], [1 / 2], [1], 0⟩)
            (fixWeight ⟨[1], [1 / 2], [1], 0⟩)).1
          (fixWeight ⟨[1], [1 / 2], [1], 0⟩)).2.2⟩)) :=
  ⟨List.Perm.refl _,
    getflowcover_lambda_positive_and_retry ⟨[1], [1 / 2], [1], 0⟩
      (fun _ => none) (fun _ _ _ _ => none)
      (flowCoverItems ⟨[1], [1 / 2], [1], 0⟩) (List.Perm.refl _)⟩

/-- An element mapped to `none` makes the `Option`-monadic `mapM` of the
whole list evaluate to `none`: the bound-determination loops abort as soon
as one entry fails. -/
theorem mapM_none_of_mem {α β : Type} (f : α → Option β) :
    ∀ (l : List α) (x : α), x ∈ l → f x = none → l.mapM f = none := by
  intro l
  induction l with
  | nil => intro x hx _; simp at hx
  | cons a t ih =>
    intro x hx hfx
    rcases List.mem_cons.mp hx with h | h
    · subst h
      rw [List.mapM_cons, hfx]
      rfl
    · cases hfa : f a with
      | none =>
        rw [List.mapM_cons, hfa]
        rfl
      | some b =>
        rw [List.mapM_cons, hfa]
        show (t.mapM f >>= fun bs => pure (b :: bs)) = none
        rw [ih x h hfx]
        rfl

instance : IsTotal (ℕ × ℚ) (fun a b => b.1 ≤ a.1) :=
  ⟨fun a b => le_total b.1 a.1⟩

instance : IsTrans (ℕ × ℚ) (fun a b => b.1 ≤ a.1) :=
  ⟨fun _ _ _ h1 h2 => le_trans h2 h1⟩

/-- In a list sorted by non-increasing variable index, an entry whose index
clears a threshold lies in the `takeWhile` prefix for that threshold: a
continuous entry of the sorted cut belongs to the continuous prefix. -/
theorem mem_takeWhile_of_sorted_ge (fc : ℕ) :
    ∀ (l : List (ℕ × ℚ)), l.Sorted (fun a b => b.1 ≤ a.1) →
      ∀ e, e ∈ l → fc ≤ e.1 →
        e ∈ l.takeWhile (fun x => decide (fc ≤ x.1)) := by
  intro l
  induction l with
  | nil => intro _ e he _; simp at he
  | cons a t ih =>
    intro hs e he hfe
    have hs2 := List.sorted_cons.mp hs
    rcases List.mem_cons.mp he with h | h
    · subst h
      rw [List.takeWhile_cons_of_pos (by simpa using hfe)]
      exact List.mem_cons_self _ _
    · have hfa : fc ≤ a.1 := le_trans hfe (hs2.1 e h)
      rw [List.takeWhile_cons_of_pos (by simpa using hfa)]
      exact List.mem_cons_of_mem _ (ih hs2.2 e h hfe)

/-- With no variable lower bounds registered, `findBestLb` returns the
global or the local lower bound. -/
theorem findBestLb_std (p : Prob) (sol : Option (ℕ → ℚ)) (v : ℕ)
    (uv al : Bool) (h5 : (p.var v).vlbs = []) :
    (findBestLb p sol v uv al).1 = (p.var v).glb ∨
      (findBestLb p sol v uv al).1 = (p.var v).llb := by
  have hc : closestVlb p sol v = none := by simp [closestVlb, h5]
  simp only [findBestLb, hc]
  split_ifs <;> simp

/-- With no variable upper bounds registered, `findBestUb` returns the
global or the local upper bound. -/
theorem findBestUb_std (p : Prob) (sol : Option (ℕ → ℚ)) (v : ℕ)
    (uv al : Bool) (h6 : (p.var v).vubs = []) :
    (findBestUb p sol v uv al).1 = (p.var v).gub ∨
      (findBestUb p sol v uv al).1 = (p.var v).lub := by
  have hc : closestVub p sol v = none := by simp [closestVub, h6]
  simp only [findBestUb, hc]
  split_ifs <;> simp

/-- A variable with infinite global and local bounds in both directions and
no variable bounds makes `determineBestBounds` (without an override table)
report a free variable. -/
theorem determineBestBounds_free (p : Prob) (sol : Option (ℕ → ℚ)) (v : ℕ)
    (bs : ℚ) (uv al fir igs : Bool) (btft : ℕ → ℤ)
    (h1 : isInf (-(p.var v).glb)) (h2 : isInf (p.var v).gub)
    (h3 : isInf (-(p.var v).llb)) (h4 : isInf (p.var v).lub)
    (h5 : (p.var v).vlbs = []) (h6 : (p.var v).vubs = []) :
    (determineBestBounds p sol v bs uv al fir igs none btft).freevariable =
      true := by
  have hl : isInf (-(findBestLb p sol v uv al).1) := by
    rcases findBestLb_std p sol v uv al h5 with h | h <;> rw [h] <;>
      assumption
  have hu : isInf (findBestUb p sol v uv al).1 := by
    rcases findBestUb_std p sol v uv al h6 with h | h <;> rw [h] <;>
      assumption
  simp only [determineBestBounds, determineBestBoundsAuto]
  rw [if_pos ⟨hl, hu⟩]

/-- Claim C8 counterexample: the aggregation row `aggrCancel` contains the
integral variable `0` with nonzero coefficient, and variable `0` is free
(no finite global or local bound in either direction, no variable bounds);
yet `SCIPcalcMIR` reports `success = true` on it.  The variable-bound
substitution performed for the continuous variable `1` (whose closest
variable lower bound references variable `0`) cancels the coefficient of
variable `0` to exactly zero before the integral bound-determination loop
runs, and cancelled integral entries are skipped there without a
free-variable check (cuts.c:1392-1403). -/
theorem mir_succeeds_with_cancelled_free_var :
    ((0, (-1 : ℚ)) ∈ aggrCancel.entries ∧
      isInf (-(probCancel.var 0).glb) ∧ isInf (probCancel.var 0).gub ∧
      isInf (-(probCancel.var 0).llb) ∧ isInf (probCancel.var 0).lub ∧
      (probCancel.var 0).vlbs = [] ∧ (probCancel.var 0).vubs = []) ∧
    (SCIPcalcMIR probCancel none 0 true true false none (fun _ => 0)
      (1 / 100) (1 / 2) 1 aggrCancel).success = true := by
  constructor
  · refine ⟨by simp [aggrCancel], ?_, ?_, ?_, ?_, rfl, rfl⟩ <;>
      norm_num [probCancel, Prob.var, freeIntVar, isInf, infinityQ]
  · have e1 : cleanupCut (aggrCancel.entries.map (fun e => (e.1, e.2 * 1)))
        ((1 : ℚ) * aggrCancel.rhs) = ([(0, -1), (1, 1)], 1 / 2) := by
      norm_num [cleanupCut, aggrCancel]
    have e2 : sortDownIntReal [(0, (-1 : ℚ)), (1, 1)] = [(1, 1), (0, -1)] := by
      norm_num [sortDownIntReal, List.insertionSort, List.orderedInsert]
    have e3 : determineBestBounds probCancel none 1 0 true true false false
        none (fun _ => 0) =
        ⟨5, infinityQ, 0, -1, BOUNDTYPE_LOWER, false⟩ := by
      norm_num [determineBestBounds, determineBestBoundsAuto, findBestLb,
        findBestUb, closestVlb, closestVub, solval, Prob.var, probCancel,
        freeIntVar, vlbContVar, VARTYPE_CONTINUOUS, isInf, infinityQ,
        BOUNDTYPE_LOWER, List.enum]
    have hfc : probCancel.firstcontvar = 1 := rfl
    have hvb : (probCancel.var 1).vlbs = [(0, 1, 0)] := rfl
    have s1 : transformMIRContSelect probCancel none 0 true true false none
        (fun _ => 0) [(1, 1)] =
        some [((1, 1), ⟨5, infinityQ, 0, -1, BOUNDTYPE_LOWER, false⟩)] := by
      simp [transformMIRContSelect, List.mapM, List.mapM.loop, e3]
    have e4 : cutsTransformMIR probCancel none 0 true true false none
        (fun _ => 0) (1 / 100) (1 / 2) [(0, -1), (1, 1)] (1 / 2) =
        some ([⟨1, 1, 1, 0, 5, infinityQ, 0, -1⟩], 1 / 2, false) := by
      simp only [cutsTransformMIR, e2]
      rw [hfc]
      norm_num [-Prod.mk_one_one, List.takeWhile, List.dropWhile, s1,
        transformMIRContStep, transformMIRIntSelect, transformMIRIntStep,
        fixIntegralRhsBlock, updateEntry, BOUNDTYPE_LOWER, hvb, List.mapM,
        List.mapM.loop]
    have e5 : cutsRoundMIR probCancel [⟨1, 1, 1, 0, 5, infinityQ, 0, -1⟩]
        0 (1 / 2) = ([], 0) := by
      norm_num [cutsRoundMIR, cutsRoundMIRContCoef, cutsRoundMIRIntCoef,
        hfc, List.filter]
    simp only [SCIPcalcMIR, e1]
    rw [e4]
    norm_num [e5, cutsSubstituteMIR, cleanupCut, aggrCancel, MAXCMIRSCALE]

/-- Claim C8 as amended: if the aggregation row contains, with a coefficient
that is nonzero after scaling, a variable in the continuous index range
whose global and local bounds are all infinite and which has no variable
bounds, then (without a user bound-override table) both `SCIPcalcMIR` and
`SCIPcalcStrongCG` report `success = false`: the continuous entries are
bound-checked before any substitution can cancel them.  (For an integral
free variable the same holds only if its coefficient is still nonzero when
the integral bound-determination loop runs.) -/
theorem free_continuous_var_aborts_mir_and_strongcg (p : Prob)
    (sol : Option (ℕ → ℚ)) (boundswitch : ℚ)
    (usevbds allowlocal fixintegralrhs : Bool) (btft : ℕ → ℤ)
    (minfrac maxfrac scale : ℚ) (ar : AggrRow) (v : ℕ) (c : ℚ)
    (hmem : (v, c) ∈ ar.entries) (hc : ¬ c * scale = 0)
    (hfc : p.firstcontvar ≤ v)
    (h1 : isInf (-(p.var v).glb)) (h2 : isInf (p.var v).gub)
    (h3 : isInf (-(p.var v).llb)) (h4 : isInf (p.var v).lub)
    (h5 : (p.var v).vlbs = []) (h6 : (p.var v).vubs = []) :
    (SCIPcalcMIR p sol boundswitch usevbds allowlocal fixintegralrhs none
        btft minfrac maxfrac scale ar).success = false ∧
    (SCIPcalcStrongCG p sol boundswitch usevbds allowlocal minfrac maxfrac
        scale ar).success = false := by
  have hm0 : (v, c * scale) ∈ ar.entries.map (fun e => (e.1, e.2 * scale)) :=
    List.mem_map.mpr ⟨(v, c), hmem, rfl⟩
  have hm1 : (v, c * scale) ∈
      (cleanupCut (ar.entries.map (fun e => (e.1, e.2 * scale)))
        (scale * ar.rhs)).1 := by
    simp only [cleanupCut]
    exact List.mem_filter.mpr ⟨hm0, by simpa using hc⟩
  have hm2 : (v, c * scale) ∈ sortDownIntReal
      (cleanupCut (ar.entries.map (fun e => (e.1, e.2 * scale)))
        (scale * ar.rhs)).1 := by
    unfold sortDownIntReal
    exact (List.perm_insertionSort _ _).mem_iff.mpr hm1
  have hsort : (sortDownIntReal
      (cleanupCut (ar.entries.map (fun e => (e.1, e.2 * scale)))
        (scale * ar.rhs)).1).Sorted (fun a b => b.1 ≤ a.1) :=
    List.sorted_insertionSort _ _
  have hm3 : (v, c * scale) ∈ (sortDownIntReal
      (cleanupCut (ar.entries.map (fun e => (e.1, e.2 * scale)))
        (scale * ar.rhs)).1).takeWhile
      (fun e => decide (p.firstcontvar ≤ e.1)) :=
    mem_takeWhile_of_sorted_ge p.firstcontvar _ hsort _ hm2 hfc
  have hlb : isInf (-(findBestLb p sol v usevbds allowlocal).1) := by
    rcases findBestLb_std p sol v usevbds allowlocal h5 with h | h <;>
      rw [h] <;> assumption
  have hub : isInf (findBestUb p sol v usevbds allowlocal).1 := by
    rcases findBestUb_std p sol v usevbds allowlocal h6 with h | h <;>
      rw [h] <;> assumption
  constructor
  · have hsel : transformMIRContSelect p sol boundswitch usevbds allowlocal
        fixintegralrhs none btft ((sortDownIntReal
          (cleanupCut (ar.entries.map (fun e => (e.1, e.2 * scale)))
            (scale * ar.rhs)).1).takeWhile
          (fun e => decide (p.firstcontvar ≤ e.1))) = none := by
      unfold transformMIRContSelect
      refine mapM_none_of_mem _ _ (v, c * scale) hm3 ?_
      have hfree := determineBestBounds_free p sol v boundswitch usevbds
        allowlocal fixintegralrhs false btft h1 h2 h3 h4 h5 h6
      simp [hfree]
    have htr : cutsTransformMIR p sol boundswitch usevbds allowlocal
        fixintegralrhs none btft minfrac maxfrac
        (cleanupCut (ar.entries.map (fun e => (e.1, e.2 * scale)))
          (scale * ar.rhs)).1
        (cleanupCut (ar.entries.map (fun e => (e.1, e.2 * scale)))
          (scale * ar.rhs)).2 = none := by
      simp only [cutsTransformMIR, hsel]
    simp only [SCIPcalcMIR, htr]
  · have hsel : transformStrongCGContSelect p sol usevbds allowlocal
        ((sortDownIntReal
          (cleanupCut (ar.entries.map (fun e => (e.1, e.2 * scale)))
            (scale * ar.rhs)).1).takeWhile
          (fun e => decide (p.firstcontvar ≤ e.1))) = none := by
      unfold transformStrongCGContSelect
      refine mapM_none_of_mem _ _ (v, c * scale) hm3 ?_
      rcases lt_trichotomy (c * scale) 0 with hlt | heq | hgt
      · simp [show ¬ (0 : ℚ) < c * scale from not_lt.mpr hlt.le, hlt, hub]
      · exact absurd heq hc
      · simp [hgt, hlb]
    have htr : cutsTransformStrongCG p sol boundswitch usevbds allowlocal
        (cleanupCut (ar.entries.map (fun e => (e.1, e.2 * scale)))
          (scale * ar.rhs)).1
        (cleanupCut (ar.entries.map (fun e => (e.1, e.2 * scale)))
          (scale * ar.rhs)).2 = none := by
      simp only [cutsTransformStrongCG, hsel]
    simp only [SCIPcalcStrongCG, htr]

/-- Witness for the amended C8 theorem at the one-variable problem
`probFree` whose only variable is continuous and free, with the aggregation
row `aggrFree`. -/
theorem free_continuous_var_aborts_mir_and_strongcg_witness :
    ((0, (1 : ℚ)) ∈ aggrFree.entries ∧ ¬ (1 : ℚ) * 1 = 0 ∧
      probFree.firstcontvar ≤ 0 ∧
      isInf (-(probFree.var 0).glb) ∧ isInf (probFree.var 0).gub ∧
      isInf (-(probFree.var 0).llb) ∧ isInf (probFree.var 0).lub ∧
      (probFree.var 0).vlbs = [] ∧ (probFree.var 0).vubs = []) ∧
    ((SCIPcalcMIR probFree none 0 true true false none (fun _ => 0)
        (1 / 100) (1 / 2) 1 aggrFree).success = false ∧
      (SCIPcalcStrongCG probFree none 0 true true (1 / 100) (1 / 2) 1
        aggrFree).success = false) :=
  ⟨⟨by simp [aggrFree], by norm_num, by decide,
      by norm_num [probFree, Prob.var, freeContVar, isInf, infinityQ],
      by norm_num [probFree, Prob.var, freeContVar, isInf, infinityQ],
      by norm_num [probFree, Prob.var, freeContVar, isInf, infinityQ],
      by norm_num [probFree, Prob.var, freeContVar, isInf, infinityQ],
      rfl, rfl⟩,
    free_continuous_var_aborts_mir_and_strongcg probFree none 0 true true
      false (fun _ => 0) (1 / 100) (1 / 2) 1 aggrFree 0 1
      (by simp [aggrFree]) (by norm_num) (by decide)
      (by norm_num [probFree, Prob.var, freeContVar, isInf, infinityQ])
      (by norm_num [probFree, Prob.var, freeContVar, isInf, infinityQ])
      (by norm_num [probFree, Prob.var, freeContVar, isInf, infinityQ])
      (by norm_num [probFree, Prob.var, freeContVar, isInf, infinityQ])
      rfl rfl⟩

end SCIPCuts
